import Mathlib

/-!
Verification development for the micperf benchmark-orchestration core
(modules micp/stats.py, micp/params.py, micp/kernel.py, micp/offload.py).

The Python code is shallowly embedded: dictionaries become association
lists (`List (String × _)`), Python `None` becomes `Option`, raised
exceptions become `Except` error values, and the floating point numbers
produced by Python's `float()` are modelled as exact rationals `ℚ`.
Python string operations used by the code (`startswith`, slicing,
`find`, `str.split()`, `str.join`) are modelled by structurally
recursive functions over `String.data` so that all definitions are
executable.
-/

set_option maxHeartbeats 1000000

/-! ## Python string primitives -/

/-- Python `s.startswith(pre)`. -/
def strStartsWith (s pre : String) : Bool :=
  pre.data.isPrefixOf s.data

/-- Python slicing `s[n:]` (character based). -/
def strDrop (s : String) (n : Nat) : String :=
  ⟨s.data.drop n⟩

/-- Python slicing `s[:n]` (character based). -/
def strTake (s : String) (n : Nat) : String :=
  ⟨s.data.take n⟩

/-- Test whether `sub` occurs as a contiguous sublist of `l`
(Python `l.find(sub) != -1`, boolean form). -/
def listHasSub (sub : List Char) : List Char → Bool
  | [] => sub.isEmpty
  | c :: cs => sub.isPrefixOf (c :: cs) || listHasSub sub cs

/-- Python `s.find(sub) != -1`. -/
def strContains (s sub : String) : Bool :=
  listHasSub sub.data s.data

/-- First index at which `sub` occurs in `l` (Python `s.find(sub)`,
`none` for `-1`). -/
def listFindSub (sub : List Char) : List Char → Option Nat
  | [] => if sub.isEmpty then some 0 else none
  | c :: cs =>
    if sub.isPrefixOf (c :: cs) then some 0
    else (listFindSub sub cs).map (· + 1)

/-- Python `s.find(sub)` returning `none` instead of `-1`. -/
def strFindSub (s sub : String) : Option Nat :=
  listFindSub sub.data s.data

/-- The whitespace characters recognised by Python `str.split()`. -/
def isPySpace (c : Char) : Bool :=
  c = ' ' || c = '\t' || c = '\n' || c = '\x0b' || c = '\x0c' || c = '\r'

/-- Helper for `pySplitChars`: splits at every separator character,
accumulating the current (reversed) chunk. -/
def splitChunksAux (p : Char → Bool) : List Char → List Char → List (List Char)
  | [], cur => [cur.reverse]
  | c :: cs, cur =>
    if p c then cur.reverse :: splitChunksAux p cs []
    else splitChunksAux p cs (c :: cur)

/-- All maximal chunks of `l` between separator characters (empty chunks
included). -/
def splitChunks (p : Char → Bool) (l : List Char) : List (List Char) :=
  splitChunksAux p l []

/-- Python `s.split()` on a character list: split at whitespace and drop
the empty pieces. -/
def pySplitChars (l : List Char) : List (List Char) :=
  (splitChunks isPySpace l).filter (· ≠ [])

/-- Python `s.split()` (no separator argument). -/
def pySplit (s : String) : List String :=
  (pySplitChars s.data).map (fun l => (⟨l⟩ : String))

/-- `' '.join`-style separator join on character lists. -/
def joinSep (sep : List Char) : List (List Char) → List Char
  | [] => []
  | [x] => x
  | x :: y :: xs => x ++ sep ++ joinSep sep (y :: xs)

/-- Python `sep.join(parts)`. -/
def strJoin (sep : String) (parts : List String) : String :=
  ⟨joinSep sep.data (parts.map String.data)⟩

/-! ## Association-list primitives for Python dictionaries -/

/-- Python `d[k]` as an `Option` (missing key = `KeyError`). -/
def lookupKey {β : Type} (k : String) : List (String × β) → Option β
  | [] => none
  | p :: ps => if p.1 = k then some p.2 else lookupKey k ps

/-- The list of keys of an association list. -/
def keysOf {β : Type} (l : List (String × β)) : List String :=
  l.map Prod.fst

/-- Remove the entry with key `k` (Python `d.pop(k)`). -/
def removeKey {β : Type} (k : String) : List (String × β) → List (String × β)
  | [] => []
  | p :: ps => if p.1 = k then removeKey k ps else p :: removeKey k ps

/-- Python `d[k] = v`: overwrite the entry if the key is present,
otherwise add a new entry. -/
def setKey {β : Type} (l : List (String × β)) (k : String) (v : β) : List (String × β) :=
  if (lookupKey k l).isSome then
    l.map (fun p => if p.1 = k then (k, v) else p)
  else l ++ [(k, v)]

/-- Decidable equality for `Except`, used to evaluate the model on
concrete inputs. -/
instance {ε α : Type} [DecidableEq ε] [DecidableEq α] : DecidableEq (Except ε α) :=
  fun x y =>
    match x, y with
    | Except.ok a, Except.ok b =>
      decidable_of_iff (a = b) ⟨fun h => by rw [h], fun h => by injection h⟩
    | Except.ok _, Except.error _ => Decidable.isFalse (fun h => by injection h)
    | Except.error _, Except.ok _ => Decidable.isFalse (fun h => by injection h)
    | Except.error e, Except.error f =>
      decidable_of_iff (e = f) ⟨fun h => by rw [h], fun h => by injection h⟩

/-! ## Stats (micp/stats.py, class Stats)

`Stats.perf` is a nested dictionary mapping a metric tag to a dictionary
with keys `value`, `units` and optionally `rollup`.  The constructor
validates that shape; in the embedding the shape is enforced by the type
`PerfEntry`.  The numeric string `value` (always consumed through
`float(...)` by the comparison code) is modelled directly as a rational.
-/

/-- One metric record of `Stats.perf`: `{'value': ..., 'units': ...,
'rollup': ...}`; `rollup = none` models an absent `rollup` key. -/
structure PerfEntry where
  value : ℚ
  units : String
  rollup : Option Bool
deriving Repr, DecidableEq

instance : Inhabited PerfEntry := ⟨⟨0, "", none⟩⟩

/-- Python `perf[tag].get('rollup', True)`. -/
def PerfEntry.rolledUp (e : PerfEntry) : Bool :=
  e.rollup.getD true

/-- The `Stats` object: description and performance dictionary (the
`params` member is irrelevant to the statistics claims and omitted). -/
structure Stats where
  desc : String
  perf : List (String × PerfEntry)
deriving Repr, DecidableEq

/-- `tag.find('Time') != -1` from `Stats.__sub__`. -/
def containsTime (tag : String) : Bool :=
  strContains tag "Time"

/-- The signed relative error computed for one tag by `Stats.__sub__`:
`sign * (float(self[tag]) - float(ref[tag])) / float(ref[tag])` where
`sign` is `-1` iff the tag contains `'Time'`. -/
def relErrorOf (tag : String) (selfVal refVal : ℚ) : ℚ :=
  (if containsTime tag then -1 else 1) * (selfVal - refVal) / refVal

/-- Loop body of `Stats.__sub__` (stats.py lines 83-94): iterate over the
tags of `self.perf`, restricted to rolled-up tags, and keep the smallest
relative error.  A tag missing from `ref.perf` is a Python `KeyError`
and a zero reference value is a `ZeroDivisionError`; both are modelled
as `Except.error`. -/
def statsSubAux (r : Stats) : List (String × PerfEntry) → Option ℚ → Except Unit (Option ℚ)
  | [], acc => Except.ok acc
  | (tag, e) :: rest, acc =>
    if e.rolledUp then
      match lookupKey tag r.perf with
      | none => Except.error ()
      | some re =>
        if re.value = 0 then Except.error ()
        else
          let relError := relErrorOf tag e.value re.value
          let acc2 :=
            match acc with
            | none => some relError
            | some m => if relError < m then some relError else some m
          statsSubAux r rest acc2
    else statsSubAux r rest acc

/-- `Stats.__sub__ (self, ref)`: `Except.ok none` is Python's `None`
result (no rolled-up tag at all). -/
def statsSub (s r : Stats) : Except Unit (Option ℚ) :=
  statsSubAux r s.perf none

/-- The rolled-up part of a performance dictionary. -/
def rolledPerf (s : Stats) : List (String × PerfEntry) :=
  s.perf.filter (fun p => p.2.rolledUp)

/-- Reference value for a tag, totalised with a default for the
specification-side formula (the theorems assume the tag is present). -/
def refValD (r : Stats) (tag : String) : ℚ :=
  ((lookupKey tag r.perf).getD default).value

/-- Specification-side list of signed relative errors over the rolled-up
tags of `s`, in tag order. -/
def specErrList (s r : Stats) : List ℚ :=
  (rolledPerf s).map (fun p => relErrorOf p.1 p.2.value (refValD r p.1))

/-! ## Relative-error regression test
(`StatsCollection._relative_error_test`, stats.py lines 632-650, and
`_print_perf_test_verdict`, lines 661-675) -/

/-- One `maxRegr` update of the loop in `_relative_error_test`. -/
def relErrStep (margin maxRegr relError : ℚ) : ℚ :=
  if relError < -margin then
    if relError < maxRegr then relError else maxRegr
  else if margin < relError ∧ maxRegr < relError ∧ 0 ≤ maxRegr then relError
  else maxRegr

/-- The loop of `_relative_error_test` over the compared (actual,
expected) pairs.  The relative error of a pair is `actual - expected`
via `Stats.__sub__`; a `KeyError`/`ZeroDivisionError` inside the
subtraction, or a `None` subtraction result (which makes the Python code
fail with a `TypeError` when reporting the regression), is modelled as
`Except.error`. -/
def relErrTestAux (margin : ℚ) : List (Stats × Stats) → ℚ → Except Unit ℚ
  | [], maxRegr => Except.ok maxRegr
  | (a, e) :: rest, maxRegr =>
    match statsSub a e with
    | Except.error _ => Except.error ()
    | Except.ok none => Except.error ()
    | Except.ok (some relError) => relErrTestAux margin rest (relErrStep margin maxRegr relError)

/-- Errors of the regression test: either a propagated comparison error,
or the `PerfRegressionError` raised by `_print_perf_test_verdict` when
`test_failed` holds (`maxRegr < -margin`). -/
inductive TestErr where
  | comparisonError : TestErr
  | perfRegression : TestErr
deriving Repr, DecidableEq

/-- `_relative_error_test` followed by `_print_perf_test_verdict`:
computes `maxRegr` over the pairs and raises `PerfRegressionError`
exactly when `maxRegr < -margin`. -/
def relativeErrorTestRun (margin : ℚ) (pairs : List (Stats × Stats)) : Except TestErr Unit :=
  match relErrTestAux margin pairs 0 with
  | Except.error _ => Except.error TestErr.comparisonError
  | Except.ok maxRegr =>
    if maxRegr < -margin then Except.error TestErr.perfRegression else Except.ok ()

/-! Sanity examples for the Stats model. -/

example : containsTime "Computation.Avg.Time" = true := by decide
example : containsTime "Computation.Avg" = false := by decide
example : pySplit "--a  --b v" = ["--a", "--b", "v"] := by decide
example : strJoin " " ["--a", "", "--b"] = "--a  --b" := by decide

/-! ## StatsCollection stores and `extend` (stats.py lines 233-284)

`StatsCollection._store` maps a kernel name to a dictionary from
offload name (of the form `offload + '__' + tag`) to a list of `Stats`.
-/

/-- The offload-name dictionary of one kernel. -/
abbrev OffStore := List (String × List Stats)

/-- The `_store` member of a `StatsCollection`. -/
abbrev Store := List (String × OffStore)

/-- `split_offload` (stats.py lines 916-924): split at the first `'__'`
into the offload base name and the tag. -/
def splitOffload (offloadName : String) : String × Option String :=
  match strFindSub offloadName "__" with
  | none => (offloadName, none)
  | some splitPos => (strTake offloadName splitPos, some (strDrop offloadName (splitPos + 2)))

/-- The deprecated-kernel renaming dictionary of `extend`. -/
def deprecationPairs : List (String × String) :=
  [("1dfft", "onedfft"),
   ("1dfft_streaming", "onedfft_streaming"),
   ("2dfft", "twodfft"),
   ("dgemm_mkl", "dgemm"),
   ("sgemm_mkl", "sgemm"),
   ("linpack_dp", "linpack"),
   ("stream_mccalpin", "stream")]

/-- First loop of `extend`: every deprecated kernel key of the other
store is popped and re-inserted under its current name. -/
def renameKernels (other : Store) : Store :=
  deprecationPairs.foldl
    (fun st pr =>
      match lookupKey pr.1 st with
      | some v => setKey (removeKey pr.1 st) pr.2 v
      | none => st)
    other

/-- Second loop of `extend`: offload keys starting with `'linux_native'`
are popped and re-inserted with the first 6 characters (`'linux_'`)
removed. -/
def renameLinuxNativeOffs (offs : OffStore) : OffStore :=
  (keysOf offs).foldl
    (fun acc oo =>
      if strStartsWith oo "linux_native" then
        match lookupKey oo acc with
        | some v => setKey (removeKey oo acc) (strDrop oo 6) v
        | none => acc
      else acc)
    offs

/-- Rename one perf tag of a `Stats` (pop the old tag and store its
entry under the new tag, with the `KeyError` for an absent tag
swallowed). -/
def retagStat (fromTag toTag : String) (st : Stats) : Stats :=
  match lookupKey fromTag st.perf with
  | some e => ⟨st.desc, setKey (removeKey fromTag st.perf) toTag e⟩
  | none => st

/-- Apply `retagStat` to every stats list whose offload key starts with
`pre`. -/
def retagOffs (pre fromTag toTag : String) (offs : OffStore) : OffStore :=
  offs.map (fun p =>
    if strStartsWith p.1 pre then (p.1, p.2.map (retagStat fromTag toTag)) else p)

/-- Re-tag the metrics of one gemm kernel of the other store (the
`try`/`except KeyError` pair of loops for one kernel name): re-tag
`Computation.Avg` to `Host.Computation.Avg` under `pragma*` offloads
and to `Task.Computation.Avg` under `native*` offloads. -/
def gemmStep (acc : Store) (g : String) : Store :=
  match lookupKey g acc with
  | some offs =>
    setKey acc g
      (retagOffs "native" "Computation.Avg" "Task.Computation.Avg"
        (retagOffs "pragma" "Computation.Avg" "Host.Computation.Avg" offs))
  | none => acc

/-- Third part of `extend`: apply `gemmStep` for `sgemm` and `dgemm`. -/
def gemmRetag (st : Store) : Store :=
  ["sgemm", "dgemm"].foldl gemmStep st

/-- The `while offload in self._store[kernel]: offload = offload + ' ext'`
loop, with fuel.  Any `existing.length + 1` successive candidates are
pairwise distinct (each append strictly increases the length), so that
much fuel always suffices. -/
def freshKeyAux (existing : List String) : Nat → String → String
  | 0, k => k
  | n + 1, k => if k ∈ existing then freshKeyAux existing n (k ++ " ext") else k

/-- First candidate of `k`, `k ++ " ext"`, `k ++ " ext ext"`, ... not in
`existing`. -/
def freshKey (existing : List String) (k : String) : String :=
  freshKeyAux existing (existing.length + 1) k

/-- One step of the merge loop of `extend`: an offload entry of the
other store whose base name occurs among `bases` is inserted under a
fresh (`' ext'`-suffixed) key; any other entry is skipped. -/
def mergeStep (bases : List String) (acc : OffStore) (p : String × List Stats) : OffStore :=
  if (splitOffload p.1).1 ∈ bases then
    setKey acc (freshKey (keysOf acc) p.1) p.2
  else acc

/-- Merge loop of `extend` for one shared kernel: the base names of the
self store are computed once up front (`myOffloadNames`); every offload
entry of the other store is then processed by `mergeStep`. -/
def mergeOffs (selfOffs otherOffs : OffStore) : OffStore :=
  otherOffs.foldl (mergeStep ((keysOf selfOffs).map (fun oo => (splitOffload oo).1))) selfOffs

/-- `StatsCollection.extend` on the underlying stores: rename deprecated
kernel keys and legacy offload keys of the other store, re-tag the gemm
metrics, then merge every kernel shared by both stores. -/
def extendStore (selfStore otherStore : Store) : Store :=
  let o1 := renameKernels otherStore
  let o2 := o1.map (fun kv => (kv.1, renameLinuxNativeOffs kv.2))
  let o3 := gemmRetag o2
  selfStore.map (fun kv =>
    match lookupKey kv.1 o3 with
    | some otherOffs => (kv.1, mergeOffs kv.2 otherOffs)
    | none => kv)

/-! ## Kernel.category_params (kernel.py lines 225-243) -/

/-- Errors of `Kernel.category_params`: `NameError` for an unknown
category, `IndexError` for `scaling[-1]` on an empty scaling list, and
`NotImplementedError` when `_categoryParams` is not defined. -/
inductive CatErr where
  | unknownCategory : String → CatErr
  | indexError : CatErr
  | notImplemented : CatErr
deriving Repr, DecidableEq

/-- `Kernel.category_params(category)` for the abstract base class:
look the category up in `_categoryParams`; on a `KeyError`, fall back to
the last element of the `scaling` category when `category` is
`'optimal'`, otherwise raise the unknown-category `NameError`.  The base
implementation of `_update_params` returns the parameter list unchanged
(kernel.py lines 246-252).  `categoryMap? = none` models an instance
without the `_categoryParams` attribute. -/
def categoryParams (categoryMap? : Option (List (String × List String))) (category : String) :
    Except CatErr (List String) :=
  match categoryMap? with
  | none => Except.error CatErr.notImplemented
  | some catMap =>
    match lookupKey category catMap with
    | some params => Except.ok params
    | none =>
      if category = "optimal" then
        match lookupKey "scaling" catMap with
        | some scaling =>
          match scaling.getLast? with
          | some lastEntry => Except.ok [lastEntry]
          | none => Except.error CatErr.indexError
        | none => Except.error (CatErr.unknownCategory category)
      else Except.error (CatErr.unknownCategory category)

example :
    categoryParams (some [("scaling", ["a 1", "a 2"])]) "optimal" = Except.ok ["a 2"] := by
  decide

example :
    categoryParams (some [("scaling", ["a 1", "a 2"])]) "test" =
      Except.error (CatErr.unknownCategory "test") := by
  decide

/-! ## Params (micp/params.py, class Params)

`Params.__init__` receives the raw parameters (modelled here as the
token list produced by `shlex.split` for string input), the schema
`paramNames`, the defaults dictionary, the quiet list and a type
validator name.  Parsing is positional when no token looks like a long
or short option, and option-based otherwise.
-/

/-- The exceptions raised while constructing or validating a `Params`;
each constructor records the Python exception class it models. -/
inductive ParamErr where
  /-- `MicpParamsHelpError` (from `--help` or `-h`). -/
  | helpRequested : ParamErr
  /-- `UnknownParamError`: `--name` not among the parameter names. -/
  | unknownParam : String → ParamErr
  /-- `UnknownParamError`: `-x` matching no parameter name. -/
  | unknownFlag : Char → ParamErr
  /-- `UnknownParamError`: token that is neither a long option, a short
  option nor a valid positional token, with its position. -/
  | malformedToken : String → Nat → ParamErr
  /-- `NameError` (internal): `-x` matching more than one name. -/
  | ambiguousFlag : List String → ParamErr
  /-- `InvalidParamTypeError` from a type validator. -/
  | invalidType : String → String → ParamErr
  /-- `RuntimeError` (internal): `_validators` has no entry for the
  parameter. -/
  | internalValidator : String → ParamErr
deriving Repr, DecidableEq

/-- A parameter type validator: `validate_param(name, value)` returns
the value unchanged on success. -/
abbrev Validator := String → String → Except ParamErr String

/-- `NoParamTypeValidator` (validator name `'none'`, the default). -/
def noValidator : Validator := fun _ v => Except.ok v

/-- `micp_common.unsigned_int`: Python `param.isdigit()`. -/
def unsignedIntCheck (s : String) : Bool :=
  !s.data.isEmpty && s.data.all Char.isDigit

/-- `micp_common.signed_int`: Python regex `^-?\d+$`. -/
def signedIntCheck (s : String) : Bool :=
  unsignedIntCheck (if strStartsWith s "-" then strDrop s 1 else s)

/-- `GEMMParamTypeValidator` (params.py lines 512-524): unsigned
integers for `i_num_rep` and the matrix sizes, a signed integer for
`n_num_thread`, and the enumerated `m_mode` values. -/
def gemmValidator : Validator := fun name value =>
  if name = "i_num_rep" ∨ name = "M_size" ∨ name = "N_size" ∨ name = "K_size" then
    if unsignedIntCheck value then Except.ok value
    else Except.error (ParamErr.invalidType name value)
  else if name = "n_num_thread" then
    if signedIntCheck value then Except.ok value
    else Except.error (ParamErr.invalidType name value)
  else if name = "m_mode" then
    if value ∈ ["NN", "NT", "TN", "TT", "0", "1", "2", "3"] then Except.ok value
    else Except.error (ParamErr.invalidType name value)
  else Except.error (ParamErr.internalValidator name)

/-- Python regex `^-[a-zA-Z]$` (`is_short_option`). -/
def isShortOption (s : String) : Bool :=
  match s.data with
  | ['-', c] => c.isAlpha
  | _ => false

/-- Total model of Python character indexing `s[n]`; only used where
the index is known to be in range. -/
def pyCharAt (s : String) (n : Nat) : Char :=
  s.data.getD n '\x00'

/-- `self._params[name] = value` for a name that is a key of the
parameter dictionary. -/
def setParam (m : List (String × Option String)) (name : String) (v : Option String) :
    List (String × Option String) :=
  m.map (fun p => if p.1 = name then (p.1, v) else p)

/-- The long/short-option parsing loop of `Params.__init__`
(params.py lines 73-107).  `i` is the position of the first remaining
token in the original token list (used in the malformed-token message).
The loop looks one token ahead to decide whether the option consumes a
value, so the single-token case is spelled out separately (it always
records the empty string). -/
def parseTokens (validate : Validator) (paramNames : List String) :
    List String → Nat → List (String × Option String) →
      Except ParamErr (List (String × Option String))
  | [], _, acc => Except.ok acc
  | [tok], i, acc =>
    if strStartsWith tok "--" then
      let thisName := strDrop tok 2
      if thisName = "help" then Except.error ParamErr.helpRequested
      else if thisName ∈ paramNames then
        match validate thisName "" with
        | Except.error err => Except.error err
        | Except.ok vv => Except.ok (setParam acc thisName (some vv))
      else Except.error (ParamErr.unknownParam thisName)
    else if isShortOption tok then
      let thisFlag := pyCharAt tok 1
      if thisFlag = 'h' then Except.error ParamErr.helpRequested
      else
        match paramNames.filter (fun pn => strStartsWith pn ⟨[thisFlag]⟩) with
        | [] => Except.error (ParamErr.unknownFlag thisFlag)
        | [thisName] =>
          match validate thisName "" with
          | Except.error err => Except.error err
          | Except.ok vv => Except.ok (setParam acc thisName (some vv))
        | more => Except.error (ParamErr.ambiguousFlag more)
    else Except.error (ParamErr.malformedToken tok i)
  | tok :: v :: rest2, i, acc =>
    if strStartsWith tok "--" then
      let thisName := strDrop tok 2
      if thisName = "help" then Except.error ParamErr.helpRequested
      else if thisName ∈ paramNames then
        if strStartsWith v "-" then
          match validate thisName "" with
          | Except.error err => Except.error err
          | Except.ok vv =>
            parseTokens validate paramNames (v :: rest2) (i + 1) (setParam acc thisName (some vv))
        else
          match validate thisName v with
          | Except.error err => Except.error err
          | Except.ok vv =>
            parseTokens validate paramNames rest2 (i + 2) (setParam acc thisName (some vv))
      else Except.error (ParamErr.unknownParam thisName)
    else if isShortOption tok then
      let thisFlag := pyCharAt tok 1
      if thisFlag = 'h' then Except.error ParamErr.helpRequested
      else
        match paramNames.filter (fun pn => strStartsWith pn ⟨[thisFlag]⟩) with
        | [] => Except.error (ParamErr.unknownFlag thisFlag)
        | [thisName] =>
          if isShortOption v then
            match validate thisName "" with
            | Except.error err => Except.error err
            | Except.ok vv =>
              parseTokens validate paramNames (v :: rest2) (i + 1) (setParam acc thisName (some vv))
          else
            match validate thisName v with
            | Except.error err => Except.error err
            | Except.ok vv =>
              parseTokens validate paramNames rest2 (i + 2) (setParam acc thisName (some vv))
        | more => Except.error (ParamErr.ambiguousFlag more)
    else Except.error (ParamErr.malformedToken tok i)

/-- The positional branch of `Params.__init__`:
`for pn, pp in zip(self._paramNames, params)` with validation. -/
def assignPositional (validate : Validator) :
    List (String × String) → List (String × Option String) →
      Except ParamErr (List (String × Option String))
  | [], acc => Except.ok acc
  | (pn, pp) :: rest, acc =>
    match validate pn pp with
    | Except.error err => Except.error err
    | Except.ok vv => assignPositional validate rest (setParam acc pn (some vv))

/-- One step of the trailing default-substitution loop of
`Params.__init__` (params.py lines 110-115): a still-`None` parameter
receives its default, or stays `None` when it has no default. -/
def defaultStep (defaults : List (String × String))
    (acc : List (String × Option String)) (pn : String) : List (String × Option String) :=
  match lookupKey pn acc with
  | some none => setParam acc pn (lookupKey pn defaults)
  | _ => acc

/-- The trailing default-substitution loop of `Params.__init__`. -/
def applyDefaults (paramNames : List String) (defaults : List (String × String))
    (m : List (String × Option String)) : List (String × Option String) :=
  paramNames.foldl (defaultStep defaults) m

/-- The state of a constructed `Params` object. -/
structure Params where
  paramNames : List String
  params : List (String × Option String)
  defaults : List (String × String)
  paramQuiet : List String
deriving Repr, DecidableEq

/-- `Params.__init__(params, paramNames, defaults, paramQuiet,
paramValidatorName)`, over an already-tokenised parameter list. -/
def paramsInit (validate : Validator) (tokens : List String) (paramNames : List String)
    (defaults : List (String × String)) (paramQuiet : List String) : Except ParamErr Params :=
  let initMap := paramNames.map (fun n => (n, (none : Option String)))
  let parsedE :=
    if tokens.any (fun t => strStartsWith t "--" || isShortOption t) then
      parseTokens validate paramNames tokens 0 initMap
    else
      assignPositional validate (paramNames.zip tokens) initMap
  match parsedE with
  | Except.error err => Except.error err
  | Except.ok parsed =>
    Except.ok ⟨paramNames, applyDefaults paramNames defaults parsed, defaults, paramQuiet⟩

/-- Value of a parameter, flattening the dictionary lookup (`none` for
both a missing key and a stored Python `None`). -/
def Params.getValue (p : Params) (pn : String) : Option String :=
  (lookupKey pn p.params).join

/-- `Params.get_named(name)`: the outer `none` is the Python
`NameError` raised for a name that is not a dictionary key. -/
def Params.getNamed (p : Params) (name : String) : Option (Option String) :=
  lookupKey name p.params

/-- `Params.set_named(name, value)`. -/
def Params.setNamed (p : Params) (name : String) (value : String) : Except Unit Params :=
  if name ∈ p.paramNames then
    Except.ok { p with params := setParam p.params name (some value) }
  else Except.error ()

/-- `Params.pos_list` (params.py lines 129-132): the stored values in
schema order restricted to parameters that are not `None` and not
quiet; an empty-string value is emitted as `'1'`. -/
def Params.posList (p : Params) : List String :=
  p.paramNames.filterMap (fun pn =>
    match lookupKey pn p.params with
    | some (some v) => if pn ∈ p.paramQuiet then none else some (if v = "" then "1" else v)
    | _ => none)

/-- `Params.pos_str`. -/
def Params.posStr (p : Params) : String :=
  strJoin " " p.posList

/-- `Params.value_str` (params.py lines 141-144). -/
def Params.valueStr (p : Params) : String :=
  strJoin " " (p.paramNames.filterMap (fun pn =>
    match lookupKey pn p.params with
    | some (some v) => if pn ∈ p.paramQuiet then none else some ("--" ++ pn ++ " " ++ v)
    | _ => none))

/-- `Params.value_list`: `value_str().split()`. -/
def Params.valueList (p : Params) : List String :=
  pySplit p.valueStr

/-- `Params.flag_str` (params.py lines 149-152): `-x value` pairs built
from the first letter of each parameter name. -/
def Params.flagStr (p : Params) : String :=
  strJoin " " (p.paramNames.filterMap (fun pn =>
    match lookupKey pn p.params with
    | some (some v) => if pn ∈ p.paramQuiet then none else some ("-" ++ strTake pn 1 ++ " " ++ v)
    | _ => none))

/-- `Params.flag_list`: `flag_str().split()`. -/
def Params.flagList (p : Params) : List String :=
  pySplit p.flagStr

/-- `Params.__str__`: like `value_str` but without the quiet
filtering. -/
def Params.strRepr (p : Params) : String :=
  strJoin " " (p.paramNames.filterMap (fun pn =>
    match lookupKey pn p.params with
    | some (some v) => some ("--" ++ pn ++ " " ++ v)
    | _ => none))

/-- `Params.num_param`: the length of `pos_list`. -/
def Params.numParam (p : Params) : Nat :=
  p.posList.length

/-- The parameter names that contribute to the quiet-filtered
serialization views (`pos_list`, `value_str`, `flag_str`). -/
def Params.serNames (p : Params) : List String :=
  p.paramNames.filter (fun pn => (p.getValue pn).isSome && !(decide (pn ∈ p.paramQuiet)))

/-! ## ParamsDrop (params.py lines 403-450) -/

/-- The state of a `ParamsDrop` object wrapping a `Params` (the
`ParamsPos` case, in which nothing is quieted, is not modelled).  The
wrapped object is deep-copied by the constructor, so the structure holds
its own modified copy. -/
structure ParamsDrop where
  params : Params
  numDrop : Int
deriving Repr, DecidableEq

/-- `ParamsDrop.__init__(params, numDrop, paramMax)`: `numDrop < 1` is
a `ValueError`; otherwise the copy's quiet list becomes the parameter
names at index range `[paramMax, paramMax + numDrop)`. -/
def paramsDropInit (p : Params) (numDrop : Int) (paramMax : Nat) : Except String ParamsDrop :=
  if numDrop < 1 then Except.error "numDrop must be greater than 0"
  else
    Except.ok ⟨{ p with paramQuiet := (p.paramNames.drop paramMax).take numDrop.toNat }, numDrop⟩

/-- `ParamsDrop.pos_list` delegates to the modified copy. -/
def ParamsDrop.posList (d : ParamsDrop) : List String :=
  d.params.posList

/-- `ParamsDrop.pos_str` (modulo its extra whitespace normalisation,
which is the identity on the single-space joins produced here). -/
def ParamsDrop.posStr (d : ParamsDrop) : String :=
  strJoin " " (pySplit d.params.posStr)

/-- `ParamsDrop.value_str` delegates to the modified copy. -/
def ParamsDrop.valueStr (d : ParamsDrop) : String :=
  d.params.valueStr

/-- `ParamsDrop.value_list` delegates to the modified copy. -/
def ParamsDrop.valueList (d : ParamsDrop) : List String :=
  d.params.valueList

/-- `ParamsDrop.flag_str` delegates to the modified copy. -/
def ParamsDrop.flagStr (d : ParamsDrop) : String :=
  d.params.flagStr

/-- `ParamsDrop.flag_list` delegates to the modified copy. -/
def ParamsDrop.flagList (d : ParamsDrop) : List String :=
  d.params.flagList

/-- `ParamsDrop.get_named` delegates to the modified copy, whose stored
values are those of the wrapped object. -/
def ParamsDrop.getNamed (d : ParamsDrop) (name : String) : Option (Option String) :=
  d.params.getNamed name

/-- `ParamsDrop.num_param`. -/
def ParamsDrop.numParam (d : ParamsDrop) : Nat :=
  d.posList.length

/-! Sanity examples for the Params model. -/

example :
    (paramsInit noValidator ["--a", "5"] ["a", "b"] [("b", "7")] []).map Params.posList =
      Except.ok ["5", "7"] := by
  decide

example :
    (paramsInit noValidator ["3", "4"] ["a", "b"] [] []).map Params.valueList =
      Except.ok ["--a", "3", "--b", "4"] := by
  decide

example :
    paramsInit noValidator ["--n_num_thread", "-1"] ["n_num_thread"] [] [] =
      Except.error (ParamErr.malformedToken "-1" 1) := by
  decide

example :
    (paramsInit noValidator ["-n", "-1"] ["n_num_thread"] [] []).map
        (fun p => p.getNamed "n_num_thread") =
      Except.ok (some (some "-1")) := by
  decide

/-! ## Offload.run (micp/offload.py, lines 31-349)

`Offload.run` is effectful: it resolves executables, stages files,
launches processes and awaits them.  The embedding keeps the exact
control flow of the source and reifies every external interaction as an
oracle field of `RunEnv` together with an entry in an effect trace.
Building connection objects (lines 111-112) performs no executable
resolution, file staging or process launch and is not traced.  Kernels
with the `'getopt'` parameter grammar use the unmodelled `ParamsGetopt`
class and are outside this model.
-/

/-- `kernel.param_type()` as dispatched by `Offload.run`. -/
inductive ParamType where
  | value : ParamType
  | flag : ParamType
  | pos : ParamType
  | file : ParamType
deriving Repr, DecidableEq

/-- The kernel facets consumed by `Offload.run`, as oracle data. -/
structure KernelModel where
  name : String
  isMpiRequired : Bool
  deviceParamName : String
  paramType : ParamType
  paramForEnv : List String
  processModifiers : List String
  fixedArgs : List String
  requiresRoot : Bool
  internalScaling : Bool
  auxFiles : List String
  /-- Path returned by `kernel.param_file` for file-grammar kernels. -/
  paramFilePath : String
deriving Repr, DecidableEq

/-- The identity and topology of an `Offload` strategy instance. -/
structure OffloadModel where
  name : String
  runHost : Bool
  runDev : Bool
deriving Repr, DecidableEq

/-- Reified external interactions of `Offload.run`, in program order. -/
inductive Effect where
  /-- `kernel.path_host_exec` / `kernel.path_dev_exec`. -/
  | resolveExec : Effect
  /-- `connect.copyto(filesToCopy, '/tmp/')`. -/
  | copyToDevice : List String → Effect
  /-- `kernel.param_file(...)` writing a local parameter file. -/
  | writeParamFile : String → Effect
  /-- `connect.copyto` of the device parameter file. -/
  | stageDevParamFile : String → Effect
  /-- `connect.Popen` of the device command. -/
  | launchDev : String → Effect
  /-- `localConnect.Popen` of the host argument list. -/
  | launchHost : List String → Effect
  /-- `kernel.clean_up(hostParamFile, devParamFile, connect)` in the
  per-iteration `finally`. -/
  | cleanupIter : Effect
  /-- `kernel.clean_up([], filesToRemove + devParamFile, connect)` in
  the outer `finally`. -/
  | cleanupFinal : Effect
deriving Repr, DecidableEq

/-- The dependency identifiers of `MissingDependenciesError`. -/
inductive Dep where
  | mpi : Dep
  | redist : Dep
  | linpack : Dep
deriving Repr, DecidableEq

/-- The exceptions propagated out of `Offload.run`. -/
inductive RunError where
  /-- `micp_common.MissingDependenciesError`. -/
  | missingDependencies : Dep → RunError
  /-- `micp_connect.CalledProcessError(returncode, cmd)`. -/
  | calledProcess : Int → String → RunError
  /-- `NameError` (device-index parameter or environment parameter not
  found). -/
  | nameError : RunError
  /-- `micp_common.NoExecutionPermission`, naming the side. -/
  | noExecutionPermission : String → RunError
  /-- Any other `OSError` (e.g. a failed copy to the device). -/
  | osError : RunError
deriving Repr, DecidableEq

/-- Oracles for the external world consulted by one `Offload.run`
call.  Per-iteration oracles are indexed by the iteration number. -/
structure RunEnv where
  /-- `micp_common.is_mpi_available()`. -/
  mpiAvailable : Bool
  /-- Result of `kernel.path_host_exec` / `path_dev_exec`:
  `Except.error` is `NoExecutableError`, `Except.ok none` a `None`
  path. -/
  execResolve : Except Unit (Option String)
  /-- `os.path.exists(execPath)`. -/
  pathExists : Bool
  /-- `connect.get_offload_index()`. -/
  devIdx : Int
  /-- Whether the staging copy to the device succeeds. -/
  copySucceeds : Bool
  /-- Whether the device-side `Popen` has execution permission. -/
  devPermission : Bool
  /-- Whether the host-side `Popen` has execution permission. -/
  hostPermission : Bool
  /-- `devProc.returncode` for iteration `i`. -/
  devReturnCode : Nat → Int
  /-- `hostProc.returncode` for iteration `i`. -/
  hostReturnCode : Nat → Int
  /-- Parsed `(desc, perf)` list for an internal-scaling kernel. -/
  parsedStats : Nat → List Stats
  /-- Parsed single `Stats` for an ordinary kernel. -/
  parsedStat : Nat → Stats

/-- Python `os.path.basename` (the part after the last `'/'`). -/
def baseNameStr (s : String) : String :=
  ⟨(s.data.reverse.takeWhile (fun c => c ≠ '/')).reverse⟩

/-- Device-index fixing for one `Params` (offload.py lines 143-153):
overwrite the device parameter with `str(devIdx)` when present; a
missing parameter is a `NameError` that is re-raised exactly when
`devIdx != 0`. -/
def fixDeviceParam (devIdx : Int) (devParName : String) (param : Params) :
    Except RunError Params :=
  match param.getNamed devParName with
  | some v? =>
    if v? ≠ some (toString devIdx) then
      match param.setNamed devParName (toString devIdx) with
      | Except.ok p2 => Except.ok p2
      | Except.error _ => Except.error RunError.nameError
    else Except.ok param
  | none => if devIdx ≠ 0 then Except.error RunError.nameError else Except.ok param

/-- `fixDeviceParam` over a parameter list. -/
def fixDeviceParams (devIdx : Int) (devParName : String) :
    List Params → Except RunError (List Params)
  | [] => Except.ok []
  | p :: ps =>
    match fixDeviceParam devIdx devParName p with
    | Except.error e => Except.error e
    | Except.ok p2 =>
      match fixDeviceParams devIdx devParName ps with
      | Except.error e => Except.error e
      | Except.ok ps2 => Except.ok (p2 :: ps2)

/-- Host-side serialization of the parameters (offload.py lines
214-228). -/
def hostSerial (k : KernelModel) (hostParam : Params) : List String :=
  match k.paramType with
  | ParamType.value => hostParam.valueList
  | ParamType.flag => hostParam.flagList
  | ParamType.pos => hostParam.posList
  | ParamType.file => if k.name ≠ "hplinpack" then [k.paramFilePath] else []

/-- The full host command line (offload.py lines 233-254):
`process modifiers ++ [execPath] ++ serialized parameters ++ fixed
arguments`, with a leading `sudo` for root-requiring kernels. -/
def hostArgsOf (k : KernelModel) (execPath : String) (hostParam : Params) : List String :=
  let base := k.processModifiers ++ (execPath :: hostSerial k hostParam) ++ k.fixedArgs
  if k.requiresRoot then "sudo" :: base else base

/-- Device-side serialized argument string (offload.py lines 177-198). -/
def devSerial (k : KernelModel) (devParam : Params) : String :=
  match k.paramType with
  | ParamType.value => devParam.valueStr
  | ParamType.flag => devParam.flagStr
  | ParamType.pos => devParam.posStr
  | ParamType.file =>
    if k.name ≠ "hplinpack" then "/tmp/" ++ baseNameStr k.paramFilePath else ""

/-- The device command string
`'cd /tmp/ && /tmp/{binary} {args}'` (offload.py lines 200-203). -/
def devCommand (k : KernelModel) (execPath : String) (devParam : Params) : String :=
  "cd /tmp/ && /tmp/" ++ baseNameStr execPath ++ " " ++ devSerial k devParam

/-- Whether every environment-bound parameter name can be read with
`get_named` (offload.py lines 206-210 and 236-250); a missing name is a
`NameError`. -/
def envLookupsOk (k : KernelModel) (param : Params) : Bool :=
  k.paramForEnv.all (fun pn => (param.getNamed pn).isSome)

/-- The per-parameter loop of `Offload.run` (offload.py lines 164-326).
Returns the collected `Stats` (or the first raised error) together with
the trace of external effects of the loop body. -/
def runLoop (o : OffloadModel) (k : KernelModel) (env : RunEnv) (execPath : String) :
    List (Params × Params) → Nat → List Stats → Except RunError (List Stats) × List Effect
  | [], _, result => (Except.ok result, [])
  | (hostParam, devParam) :: rest, i, result =>
    let devStageEffs : List Effect :=
      if o.runDev then
        if k.paramType = ParamType.file then
          [Effect.writeParamFile k.paramFilePath,
           Effect.stageDevParamFile ("/tmp/" ++ baseNameStr k.paramFilePath)]
        else []
      else []
    if o.runDev ∧ ¬ envLookupsOk k devParam then
      (Except.error RunError.nameError, devStageEffs)
    else if o.runDev ∧ ¬ env.devPermission then
      (Except.error (RunError.noExecutionPermission "Xeon Phi Coprocessor"), devStageEffs)
    else
      let effs1 := devStageEffs ++
        (if o.runDev then [Effect.launchDev (devCommand k execPath devParam)] else [])
      let hostFileEffs : List Effect :=
        if o.runHost ∧ k.paramType = ParamType.file then
          [Effect.writeParamFile k.paramFilePath]
        else []
      if o.runHost ∧ ¬ envLookupsOk k hostParam then
        (Except.error RunError.nameError, effs1 ++ hostFileEffs)
      else if o.runHost ∧ ¬ env.hostPermission then
        (Except.error (RunError.noExecutionPermission "host"), effs1 ++ hostFileEffs)
      else
        let effs2 := effs1 ++ hostFileEffs ++
          (if o.runHost then [Effect.launchHost (hostArgsOf k execPath hostParam)] else [])
        if o.runDev ∧ env.devReturnCode i ≠ 0 then
          (Except.error (RunError.calledProcess (env.devReturnCode i) (devCommand k execPath devParam)),
           effs2 ++ [Effect.cleanupIter])
        else if o.runHost ∧ env.hostReturnCode i = 127 then
          (Except.error (RunError.missingDependencies Dep.redist),
           effs2 ++ [Effect.cleanupIter])
        else if o.runHost ∧ env.hostReturnCode i ≠ 0 then
          (Except.error (RunError.calledProcess (env.hostReturnCode i)
              (strJoin " " (hostArgsOf k execPath hostParam))),
           effs2 ++ [Effect.cleanupIter])
        else
          let newStats := if k.internalScaling then env.parsedStats i else [env.parsedStat i]
          match runLoop o k env execPath rest (i + 1) (result ++ newStats) with
          | (res, effs) => (res, effs2 ++ [Effect.cleanupIter] ++ effs)

/-- `Offload.run(kernel, device, paramList, devParamList)` as an
effect-trace model.  The MPI validation (line 114) precedes the
executable resolution (lines 115-128), the existence check (line 130),
the device-index fixing (lines 138-153), the staging copy (lines
156-162) and the launch/await loop; the outer `finally` (line 331)
contributes the final cleanup to every trace that entered the `try`
block at line 155. -/
def offloadRun (o : OffloadModel) (k : KernelModel) (env : RunEnv)
    (paramList : List Params) (devParamList? : Option (List Params)) :
    Except RunError (List Stats) × List Effect :=
  if k.isMpiRequired ∧ ¬ env.mpiAvailable then
    (Except.error (RunError.missingDependencies Dep.mpi), [])
  else
    match env.execResolve with
    | Except.error _ =>
      if k.name = "linpack" ∨ k.name = "hplinpack" ∨ k.name = "hpcg" then
        (Except.error (RunError.missingDependencies Dep.linpack), [Effect.resolveExec])
      else (Except.ok [], [Effect.resolveExec])
    | Except.ok none => (Except.ok [], [Effect.resolveExec])
    | Except.ok (some execPath) =>
      if ¬ env.pathExists then (Except.ok [], [Effect.resolveExec])
      else
        let devParamList := devParamList?.getD paramList
        let fixedE : Except RunError (List Params × List Params) :=
          if o.name ≠ "native" ∧ o.name ≠ "local" then
            match fixDeviceParams env.devIdx k.deviceParamName paramList with
            | Except.error e => Except.error e
            | Except.ok l1 =>
              match fixDeviceParams env.devIdx k.deviceParamName devParamList with
              | Except.error e => Except.error e
              | Except.ok l2 => Except.ok (l1, l2)
          else Except.ok (paramList, devParamList)
        match fixedE with
        | Except.error e => (Except.error e, [Effect.resolveExec])
        | Except.ok (pl, dpl) =>
          let stageEffs : List Effect :=
            if o.runDev then [Effect.copyToDevice (execPath :: k.auxFiles)] else []
          if o.runDev ∧ ¬ env.copySucceeds then
            (Except.error RunError.osError,
             Effect.resolveExec :: stageEffs ++ [Effect.cleanupFinal])
          else
            match runLoop o k env execPath (pl.zip dpl) 0 [] with
            | (res, loopEffs) =>
              (res, Effect.resolveExec :: stageEffs ++ loopEffs ++ [Effect.cleanupFinal])

/-! ## Helper lemmas about the dictionary primitives -/

theorem keysOf_cons {β : Type} (p : String × β) (ps : List (String × β)) :
    keysOf (p :: ps) = p.1 :: keysOf ps := rfl

theorem setParam_cons (p : String × Option String) (ps : List (String × Option String))
    (n : String) (v : Option String) :
    setParam (p :: ps) n v = (if p.1 = n then (p.1, v) else p) :: setParam ps n v := rfl

theorem lookupKey_eq_none_iff {β : Type} (k : String) (l : List (String × β)) :
    lookupKey k l = none ↔ k ∉ keysOf l := by
  induction l with
  | nil => simp [lookupKey, keysOf]
  | cons p ps ih =>
    by_cases h : p.1 = k
    · simp [lookupKey, keysOf_cons, h]
    · have h2 : ¬ (k = p.1) := fun hc => h hc.symm
      simp [lookupKey, keysOf_cons, h, h2, ih]

theorem lookupKey_isSome_of_mem {β : Type} {k : String} {l : List (String × β)}
    (h : k ∈ keysOf l) : ∃ v, lookupKey k l = some v := by
  cases hl : lookupKey k l with
  | none => exact absurd ((lookupKey_eq_none_iff k l).mp hl) (fun hn => hn h)
  | some v => exact ⟨v, rfl⟩

theorem keysOf_setParam (m : List (String × Option String)) (n : String) (v : Option String) :
    keysOf (setParam m n v) = keysOf m := by
  induction m with
  | nil => rfl
  | cons p ps ih =>
    rw [setParam_cons, keysOf_cons, keysOf_cons, ih]
    by_cases h : p.1 = n
    · simp [h]
    · simp [h]

theorem lookupKey_setParam_self (m : List (String × Option String)) (n : String)
    (v : Option String) (h : n ∈ keysOf m) : lookupKey n (setParam m n v) = some v := by
  induction m with
  | nil => simp [keysOf] at h
  | cons p ps ih =>
    rw [setParam_cons]
    by_cases hp : p.1 = n
    · simp [lookupKey, hp]
    · rw [keysOf_cons, List.mem_cons] at h
      rcases h with h | h
      · exact absurd h.symm hp
      · simpa [lookupKey, hp] using ih h

theorem lookupKey_setParam_ne (m : List (String × Option String)) (n x : String)
    (v : Option String) (h : x ≠ n) : lookupKey x (setParam m n v) = lookupKey x m := by
  induction m with
  | nil => rfl
  | cons p ps ih =>
    rw [setParam_cons]
    by_cases hp : p.1 = n
    · have hpx : ¬ (p.1 = x) := by rw [hp]; exact fun hc => h hc.symm
      simp only [if_pos hp, lookupKey, if_neg hpx, ih]
    · simp only [if_neg hp, lookupKey]
      by_cases hq : p.1 = x
      · simp only [if_pos hq]
      · simp only [if_neg hq, ih]

theorem lookupKey_initMap (names : List String) (n : String) :
    lookupKey n (names.map (fun x => (x, (none : Option String)))) =
      if n ∈ names then some none else none := by
  induction names with
  | nil => simp [lookupKey]
  | cons a as ih =>
    by_cases h : a = n
    · simp [lookupKey, h]
    · have h2 : ¬ (n = a) := fun hc => h hc.symm
      simp [lookupKey, h, h2, ih]

/-! ## Claim C5: the `optimal` fallback of `category_params` -/

/-- C5: for a kernel whose category map declares `scaling` but no
`optimal` entry, `category_params('optimal')` returns the last element
of the `scaling` list as the single fallback parameter string, and any
other category name absent from the map raises the unknown-category
error. -/
theorem category_params_optimal_fallback
    (catMap : List (String × List String)) (scaling : List String)
    (hopt : lookupKey "optimal" catMap = none)
    (hscal : lookupKey "scaling" catMap = some scaling)
    (hne : scaling ≠ []) :
    categoryParams (some catMap) "optimal" = Except.ok [scaling.getLast hne] ∧
    ∀ c, c ≠ "optimal" → lookupKey c catMap = none →
      categoryParams (some catMap) c = Except.error (CatErr.unknownCategory c) := by
  constructor
  · simp [categoryParams, hopt, hscal, List.getLast?_eq_getLast_of_ne_nil hne]
  · intro c hc hnone
    simp only [categoryParams, hnone, if_neg hc]

/-- Witness for C5 at a concrete category map. -/
theorem category_params_optimal_fallback_witness :
    categoryParams (some [("scaling", ["s 1", "s 2"])]) "optimal" = Except.ok ["s 2"] ∧
    categoryParams (some [("scaling", ["s 1", "s 2"])]) "test" =
      Except.error (CatErr.unknownCategory "test") := by
  have h := category_params_optimal_fallback [("scaling", ["s 1", "s 2"])] ["s 1", "s 2"]
    (by decide) (by decide) (by decide)
  exact ⟨h.1, h.2 "test" (by decide) (by decide)⟩

/-! ## Claim C4: the positional serialization -/

/-- The common shape of `pos_list` over generic dictionary data:
filter-then-map form of the list comprehension. -/
theorem filterMapPos_eq (names : List String) (m : List (String × Option String))
    (quiet : List String) :
    (names.filterMap (fun pn =>
      match lookupKey pn m with
      | some (some v) => if pn ∈ quiet then none else some (if v = "" then "1" else v)
      | _ => none))
    = (names.filter (fun pn =>
        ((lookupKey pn m).join).isSome && !(decide (pn ∈ quiet)))).map
        (fun pn =>
          if ((lookupKey pn m).join).getD "" = "" then "1"
          else ((lookupKey pn m).join).getD "") := by
  induction names with
  | nil => rfl
  | cons a as ih =>
    rcases h : lookupKey a m with _ | v?
    · simpa [List.filterMap_cons, List.filter_cons, h] using ih
    · rcases v? with _ | v
      · simpa [List.filterMap_cons, List.filter_cons, h] using ih
      · by_cases hq : a ∈ quiet
        · simpa [List.filterMap_cons, List.filter_cons, h, hq] using ih
        · by_cases hv : v = ""
          · simpa [List.filterMap_cons, List.filter_cons, h, hq, hv] using ih
          · simpa [List.filterMap_cons, List.filter_cons, h, hq, hv] using ih

/-- `pos_list` as a map over the serialization-relevant names. -/
theorem posList_eq_serNames_map (p : Params) :
    p.posList = p.serNames.map (fun pn =>
      if (p.getValue pn).getD "" = "" then "1" else (p.getValue pn).getD "") := by
  simpa [Params.posList, Params.serNames, Params.getValue] using
    filterMapPos_eq p.paramNames p.params p.paramQuiet

/-- Counterexample to C4: a parameter whose stored value is `None` is
omitted from `pos_list` entirely (first conjunct), and the `'1'`
defaulting applies to the empty-string value instead (second
conjunct). -/
theorem pos_list_none_omitted_cex :
    (paramsInit noValidator [] ["a"] [] []).map Params.posList = Except.ok [] ∧
    (paramsInit noValidator ["--a"] ["a"] [] []).map Params.posList = Except.ok ["1"] := by
  decide

/-- C4 (amended): `pos_list`/`pos_str` emit the stored values in schema
order restricted to non-quiet parameters whose value is not `None`, and
a parameter whose stored value is the empty string is emitted as the
string `'1'`. -/
theorem pos_list_amended (p : Params) :
    p.posList = p.serNames.map (fun pn =>
      if (p.getValue pn).getD "" = "" then "1" else (p.getValue pn).getD "") ∧
    p.posStr = strJoin " " p.posList ∧
    (∀ pn ∈ p.paramNames, p.getValue pn = none → pn ∉ p.serNames) ∧
    (∀ pn ∈ p.paramNames, pn ∈ p.paramQuiet → pn ∉ p.serNames) := by
  refine ⟨posList_eq_serNames_map p, rfl, ?_, ?_⟩
  · intro pn _ hv hmem
    simp only [Params.serNames] at hmem
    have hcond := (List.mem_filter.mp hmem).2
    rw [hv] at hcond
    simp at hcond
  · intro pn _ hq hmem
    simp only [Params.serNames] at hmem
    have hcond := (List.mem_filter.mp hmem).2
    simp [hq] at hcond

/-! ## Claim C6: ParamsDrop hides without mutating -/

/-- C6: for `ParamsDrop(wrapped, drop_count, max_count)` with
`drop_count >= 1` over a named `Params`, the copy's quiet list is
exactly the names at index range `[max_count, max_count + drop_count)`,
those names never contribute to a serialization view, `get_named` still
returns the original stored value for every name, the wrapped values
are not altered (only the quiet list changes), and `drop_count < 1` is
a `ValueError`. -/
theorem params_drop_presentation (p : Params) (numDrop : Int) (paramMax : Nat) (d : ParamsDrop)
    (hd : paramsDropInit p numDrop paramMax = Except.ok d) :
    1 ≤ numDrop ∧
    d.params.paramQuiet = (p.paramNames.drop paramMax).take numDrop.toNat ∧
    d.params.params = p.params ∧
    d.params.paramNames = p.paramNames ∧
    (∀ n ∈ (p.paramNames.drop paramMax).take numDrop.toNat, n ∉ d.params.serNames) ∧
    (∀ n, d.getNamed n = p.getNamed n) ∧
    (∀ nd : Int, nd < 1 →
      paramsDropInit p nd paramMax = Except.error "numDrop must be greater than 0") := by
  simp only [paramsDropInit] at hd
  by_cases h : numDrop < 1
  · rw [if_pos h] at hd
    exact absurd hd (by simp)
  · rw [if_neg h] at hd
    have hd2 : d = ⟨{ p with paramQuiet := (p.paramNames.drop paramMax).take numDrop.toNat },
        numDrop⟩ := by
      injection hd with h2
      exact h2.symm
    subst hd2
    refine ⟨Int.not_lt.mp h, rfl, rfl, rfl, ?_, fun n => rfl, fun nd hnd => ?_⟩
    · intro n hn hmem
      simp only [Params.serNames] at hmem
      have hcond := (List.mem_filter.mp hmem).2
      simp [hn] at hcond
    · simp [paramsDropInit, hnd]

/-- Concrete wrapped parameter set for the C6 witness. -/
def dropP0 : Params :=
  ⟨["a", "b", "c"], [("a", some "1"), ("b", some "2"), ("c", some "3")], [], []⟩

/-- Concrete `ParamsDrop` result for the C6 witness
(`numDrop = 1`, `paramMax = 2` quiets the name at index 2). -/
def dropD0 : ParamsDrop :=
  ⟨⟨["a", "b", "c"], [("a", some "1"), ("b", some "2"), ("c", some "3")], [], ["c"]⟩, 1⟩

/-- Witness for C6 at `dropP0` with `numDrop = 1`, `paramMax = 2`. -/
theorem params_drop_presentation_witness :
    1 ≤ (1 : Int) ∧
    dropD0.params.paramQuiet = (dropP0.paramNames.drop 2).take (1 : Int).toNat ∧
    dropD0.params.params = dropP0.params ∧
    dropD0.params.paramNames = dropP0.paramNames ∧
    (∀ n ∈ (dropP0.paramNames.drop 2).take (1 : Int).toNat, n ∉ dropD0.params.serNames) ∧
    (∀ n, dropD0.getNamed n = dropP0.getNamed n) ∧
    (∀ nd : Int, nd < 1 →
      paramsDropInit dropP0 nd 2 = Except.error "numDrop must be greater than 0") :=
  params_drop_presentation dropP0 1 2 dropD0 (by decide)

/-! ## Claim C10: a long option never consumes a dash-leading value -/

/-- The character data of the string `"--"`. -/
theorem dataDashDash : "--".data = ['-', '-'] := rfl

/-- The character data of the string `"-"`. -/
theorem dataDash : "-".data = ['-'] := rfl

/-- A `"--" ++ pn` token starts with `"--"`. -/
theorem strStartsWith_dashdash (pn : String) : strStartsWith ("--" ++ pn) "--" = true := by
  simp [strStartsWith, String.data_append, List.isPrefixOf_iff_prefix, List.prefix_append]

/-- A `"--" ++ pn` token starts with `"-"`. -/
theorem strStartsWith_dash_of_long (pn : String) : strStartsWith ("--" ++ pn) "-" = true := by
  have h : ("-").data <+: ("--" ++ pn).data := by
    rw [String.data_append, dataDashDash, dataDash]
    exact ⟨'-' :: pn.data, rfl⟩
  simp only [strStartsWith, List.isPrefixOf_iff_prefix]
  exact h

/-- Dropping the leading `"--"` recovers the parameter name. -/
theorem strDrop_dashdash (pn : String) : strDrop ("--" ++ pn) 2 = pn := by
  simp [strDrop, String.data_append, dataDashDash]

/-- Stepping the parser over a long option followed by a dash-leading
token records the empty string and leaves the token in place. -/
theorem parseTokens_long_dash_step (names : List String) (pn t : String) (rest : List String)
    (i : Nat) (acc : List (String × Option String))
    (hpn : pn ∈ names) (hh : pn ≠ "help") (ht : strStartsWith t "-" = true) :
    parseTokens noValidator names (("--" ++ pn) :: t :: rest) i acc =
      parseTokens noValidator names (t :: rest) (i + 1) (setParam acc pn (some "")) := by
  simp [parseTokens, strStartsWith_dashdash, strDrop_dashdash, hh, hpn, ht, noValidator]

/-- Stepping the parser over a long option followed by an ordinary
value token consumes both. -/
theorem parseTokens_long_value_step (names : List String) (pn v : String) (rest : List String)
    (i : Nat) (acc : List (String × Option String))
    (hpn : pn ∈ names) (hh : pn ≠ "help") (hv : strStartsWith v "-" = false) :
    parseTokens noValidator names (("--" ++ pn) :: v :: rest) i acc =
      parseTokens noValidator names rest (i + 2) (setParam acc pn (some v)) := by
  simp [parseTokens, strStartsWith_dashdash, strDrop_dashdash, hh, hpn, hv, noValidator]

/-- A trailing long option records the empty string. -/
theorem parseTokens_long_last (names : List String) (pn : String) (i : Nat)
    (acc : List (String × Option String)) (hpn : pn ∈ names) (hh : pn ≠ "help") :
    parseTokens noValidator names [("--" ++ pn)] i acc =
      Except.ok (setParam acc pn (some "")) := by
  simp [parseTokens, strStartsWith_dashdash, strDrop_dashdash, hh, hpn, noValidator]

/-- C10 (implicit): in long/short-form parsing mode, a long option
`--name` followed by a token beginning with `-` records the empty
string and leaves the token to be parsed on its own (first conjunct);
if that token is neither a long option nor a short option — e.g. the
number `-1` — construction fails with the malformed-token
`UnknownParamError` naming the token and its position (second
conjunct); in particular `--n_num_thread -1` is rejected under the
xgemm schema even though the GEMM type validator documents `-1` as an
accepted signed integer (third conjunct; under the GEMM validator
itself construction fails even earlier, on validating the recorded
empty string). -/
theorem long_option_dash_value (names : List String) (pn t : String) (rest : List String)
    (i : Nat) (acc : List (String × Option String))
    (hpn : pn ∈ names) (hh : pn ≠ "help") (ht : strStartsWith t "-" = true) :
    (parseTokens noValidator names (("--" ++ pn) :: t :: rest) i acc =
      parseTokens noValidator names (t :: rest) (i + 1) (setParam acc pn (some ""))) ∧
    (strStartsWith t "--" = false → isShortOption t = false →
      parseTokens noValidator names (("--" ++ pn) :: t :: rest) i acc =
        Except.error (ParamErr.malformedToken t (i + 1))) ∧
    (signedIntCheck "-1" = true ∧
      paramsInit noValidator ["--n_num_thread", "-1"]
          ["i_num_rep", "n_num_thread", "m_mode", "M_size", "N_size", "K_size"] [] [] =
        Except.error (ParamErr.malformedToken "-1" 1)) := by
  have hstep := parseTokens_long_dash_step names pn t rest i acc hpn hh ht
  refine ⟨hstep, ?_, by decide, by decide⟩
  intro hlong hshort
  rw [hstep]
  cases rest with
  | nil => simp [parseTokens, hlong, hshort]
  | cons v2 rest2 => simp [parseTokens, hlong, hshort]

/-- Witness for C10 under the xgemm schema at `--n_num_thread -1`. -/
theorem long_option_dash_value_witness :
    (parseTokens noValidator ["i_num_rep", "n_num_thread", "m_mode", "M_size", "N_size", "K_size"]
        ["--n_num_thread", "-1"] 0
        (["i_num_rep", "n_num_thread", "m_mode", "M_size", "N_size", "K_size"].map
          (fun n => (n, (none : Option String)))) =
      parseTokens noValidator
        ["i_num_rep", "n_num_thread", "m_mode", "M_size", "N_size", "K_size"] ["-1"] 1
        (setParam
          (["i_num_rep", "n_num_thread", "m_mode", "M_size", "N_size", "K_size"].map
            (fun n => (n, (none : Option String))))
          "n_num_thread" (some ""))) ∧
    (strStartsWith "-1" "--" = false → isShortOption "-1" = false →
      parseTokens noValidator ["i_num_rep", "n_num_thread", "m_mode", "M_size", "N_size", "K_size"]
          ["--n_num_thread", "-1"] 0
          (["i_num_rep", "n_num_thread", "m_mode", "M_size", "N_size", "K_size"].map
            (fun n => (n, (none : Option String)))) =
        Except.error (ParamErr.malformedToken "-1" 1)) ∧
    (signedIntCheck "-1" = true ∧
      paramsInit noValidator ["--n_num_thread", "-1"]
          ["i_num_rep", "n_num_thread", "m_mode", "M_size", "N_size", "K_size"] [] [] =
        Except.error (ParamErr.malformedToken "-1" 1)) := by
  have h := long_option_dash_value
    ["i_num_rep", "n_num_thread", "m_mode", "M_size", "N_size", "K_size"]
    "n_num_thread" "-1" [] 0
    (["i_num_rep", "n_num_thread", "m_mode", "M_size", "N_size", "K_size"].map
      (fun n => (n, (none : Option String))))
    (by decide) (by decide) (by decide)
  exact h

/-! ## Claim C2: `Stats.__sub__` is the minimum signed relative error -/

/-- The running-minimum update of `Stats.__sub__` is `min`. -/
theorem ite_lt_eq_min (r m : ℚ) : (if r < m then r else m) = min m r := by
  rcases lt_or_le r m with h | h
  · rw [if_pos h, min_eq_right (le_of_lt h)]
  · rw [if_neg (not_lt.mpr h), min_eq_left h]

theorem ite_lt_eq_min_some (r m : ℚ) : (if r < m then some r else some m) = some (min m r) := by
  rw [← ite_lt_eq_min]
  split_ifs <;> rfl

/-- The running minimum of `Stats.__sub__` as a list fold. -/
def listMinAcc : Option ℚ → List ℚ → Option ℚ
  | acc, [] => acc
  | none, x :: xs => listMinAcc (some x) xs
  | some m, x :: xs => listMinAcc (some (min m x)) xs

theorem listMinAcc_some (m : ℚ) (xs : List ℚ) :
    listMinAcc (some m) xs = some (xs.foldl min m) := by
  induction xs generalizing m with
  | nil => rfl
  | cons x xs ih => simp [listMinAcc, List.foldl_cons, ih]

theorem listMinAcc_none_eq_min? (xs : List ℚ) : listMinAcc none xs = xs.min? := by
  cases xs with
  | nil => rfl
  | cons x xs => simp [listMinAcc, listMinAcc_some, List.min?]

/-- `lookupKey` finds the entry of a membership witness when the keys
are distinct. -/
theorem lookupKey_of_mem_nodup {β : Type} {l : List (String × β)}
    (hnd : (keysOf l).Nodup) {a : String} {b : β} (h : (a, b) ∈ l) :
    lookupKey a l = some b := by
  induction l with
  | nil => cases h
  | cons p ps ih =>
    rw [keysOf_cons] at hnd
    rcases List.mem_cons.mp h with h | h
    · rw [← h]
      simp [lookupKey]
    · have hnp : ¬ p.1 = a := by
        intro hpa
        have hmem : a ∈ keysOf ps := by
          have := List.mem_map_of_mem Prod.fst h
          simpa [keysOf] using this
        exact (List.nodup_cons.mp hnd).1 (hpa ▸ hmem)
      simp [lookupKey, hnp, ih (List.nodup_cons.mp hnd).2 h]

/-- `statsSubAux` computed in closed form under the assumption that
every rolled-up tag of the iterated list exists in the reference with a
non-zero value. -/
theorem statsSubAux_ok (r : Stats) (l : List (String × PerfEntry)) (acc : Option ℚ)
    (href : ∀ p ∈ l, p.2.rolledUp = true →
      ∃ re, lookupKey p.1 r.perf = some re ∧ re.value ≠ 0) :
    statsSubAux r l acc =
      Except.ok (listMinAcc acc ((l.filter (fun p => p.2.rolledUp)).map
        (fun p => relErrorOf p.1 p.2.value (refValD r p.1)))) := by
  induction l generalizing acc with
  | nil => simp [statsSubAux, listMinAcc]
  | cons p ps ih =>
    obtain ⟨tag, e⟩ := p
    have hrest : ∀ q ∈ ps, q.2.rolledUp = true →
        ∃ re, lookupKey q.1 r.perf = some re ∧ re.value ≠ 0 :=
      fun q hq => href q (List.mem_cons_of_mem _ hq)
    by_cases hr : e.rolledUp
    · obtain ⟨re, hre, hnz⟩ := href (tag, e) (List.mem_cons_self _ _) hr
      have hrefval : refValD r tag = re.value := by simp [refValD, hre]
      cases acc with
      | none =>
        simp only [statsSubAux, hr, if_true, hre, if_neg hnz]
        rw [ih _ hrest]
        simp [List.filter_cons, hr, listMinAcc, hrefval]
      | some m =>
        simp only [statsSubAux, hr, if_true, hre, if_neg hnz]
        rw [ih _ hrest]
        simp [List.filter_cons, hr, listMinAcc, hrefval, ite_lt_eq_min_some]
    · have hrb : e.rolledUp = false := by simpa using hr
      simp only [statsSubAux, hrb]
      rw [ih _ hrest]
      simp [List.filter_cons, hrb]

theorem foldl_min_zero (xs : List ℚ) (h : ∀ x ∈ xs, x = 0) : xs.foldl min 0 = 0 := by
  induction xs with
  | nil => rfl
  | cons x xs ih =>
    have hx : x = 0 := h x (List.mem_cons_self _ _)
    rw [List.foldl_cons, hx, min_self]
    exact ih (fun y hy => h y (List.mem_cons_of_mem _ hy))

theorem min?_all_zero (l : List ℚ) (hne : l ≠ []) (h : ∀ x ∈ l, x = 0) :
    l.min? = some 0 := by
  cases l with
  | nil => exact absurd rfl hne
  | cons x xs =>
    have hx : x = 0 := h x (List.mem_cons_self _ _)
    rw [List.min?, hx, foldl_min_zero xs (fun y hy => h y (List.mem_cons_of_mem _ hy))]

/-- C2: for two `Stats` carrying the same metric tags (every rolled-up
tag of `s` present in `r` with non-zero value), `s - r` equals the
minimum over rolled-up tags of `sign * (s.value - r.value) / r.value`
with `sign = -1` exactly when the tag contains `'Time'`; in particular,
identical performance dictionaries subtract to 0, and a 10% increase of
a `'Time'`-tagged metric yields the negative relative error `-0.1`. -/
theorem stats_sub_min_rel_error (s r : Stats)
    (href : ∀ p ∈ s.perf, p.2.rolledUp = true →
      ∃ re, lookupKey p.1 r.perf = some re ∧ re.value ≠ 0) :
    statsSub s r = Except.ok ((specErrList s r).min?) ∧
    (s.perf = r.perf → (keysOf s.perf).Nodup → rolledPerf s ≠ [] →
      statsSub s r = Except.ok (some 0)) ∧
    (∀ (d d2 u u2 tag : String) (v : ℚ), containsTime tag = true → 0 < v →
      statsSub ⟨d, [(tag, ⟨11 / 10 * v, u, some true⟩)]⟩ ⟨d2, [(tag, ⟨v, u2, some true⟩)]⟩ =
        Except.ok (some (-(1 / 10)))) := by
  have hmain : statsSub s r = Except.ok ((specErrList s r).min?) := by
    rw [statsSub, statsSubAux_ok r s.perf none href, listMinAcc_none_eq_min?]
    rfl
  refine ⟨hmain, ?_, ?_⟩
  · intro hsr hnd hne
    have hzero : ∀ y ∈ specErrList s r, y = 0 := by
      intro y hy
      obtain ⟨p, hp, hpy⟩ := List.mem_map.mp hy
      have hps : p ∈ s.perf := List.mem_of_mem_filter hp
      have hlook : lookupKey p.1 r.perf = some p.2 := by
        rw [← hsr]
        exact lookupKey_of_mem_nodup hnd (by cases p; exact hps)
      rw [← hpy]
      simp [relErrorOf, refValD, hlook]
    have hlne : specErrList s r ≠ [] := by
      simp only [specErrList]
      intro hc
      exact hne (List.map_eq_nil_iff.mp hc)
    rw [hmain, min?_all_zero _ hlne hzero]
  · intro d d2 u u2 tag v htime hv
    have hnz : v ≠ 0 := ne_of_gt hv
    simp only [statsSub, statsSubAux, PerfEntry.rolledUp, Option.getD, lookupKey,
      if_pos rfl, relErrorOf, htime, if_true, if_neg hnz]
    have harith : -1 * (11 / 10 * v - v) / v = -(1 / 10) := by
      field_simp
      ring
    rw [harith]

/-- A concrete reference `Stats` with a single rolled-up metric of
value 100. -/
def cStat100 : Stats := ⟨"reference run", [("Computation.Avg", ⟨100, "GFlops", some true⟩)]⟩

/-- Witness for C2: subtracting `cStat100` from itself yields 0, and a
10%-slower `'Time'` metric yields `-0.1`. -/
theorem stats_sub_min_rel_error_witness :
    statsSub cStat100 cStat100 = Except.ok (some 0) ∧
    statsSub ⟨"a", [("Run.Time", ⟨11 / 10 * 2, "sec", some true⟩)]⟩
        ⟨"b", [("Run.Time", ⟨2, "sec", some true⟩)]⟩ =
      Except.ok (some (-(1 / 10))) := by
  have href : ∀ p ∈ cStat100.perf, p.2.rolledUp = true →
      ∃ re, lookupKey p.1 cStat100.perf = some re ∧ re.value ≠ 0 := by
    intro p hp _
    have hp2 : p = ("Computation.Avg", ⟨100, "GFlops", some true⟩) := by
      simpa [cStat100] using hp
    rw [hp2]
    exact ⟨⟨100, "GFlops", some true⟩, rfl, by norm_num⟩
  have h := stats_sub_min_rel_error cStat100 cStat100 href
  exact ⟨h.2.1 rfl (by simp [cStat100, keysOf]) (by decide),
    h.2.2 "a" "b" "sec" "sec" "Run.Time" 2 (by decide) (by norm_num)⟩

/-! ## Claim C3: the relative-error regression verdict -/

/-- `_relative_error_test` in closed form when every compared pair has
a defined relative error. -/
theorem relErrTestAux_ok (margin : ℚ) (pairs : List (Stats × Stats)) (rs : List ℚ)
    (h : pairs.map (fun pr => statsSub pr.1 pr.2) = rs.map (fun x => Except.ok (some x)))
    (m0 : ℚ) :
    relErrTestAux margin pairs m0 = Except.ok (rs.foldl (relErrStep margin) m0) := by
  induction pairs generalizing rs m0 with
  | nil =>
    cases rs with
    | nil => rfl
    | cons x xs => simp at h
  | cons pr prs ih =>
    cases rs with
    | nil => simp at h
    | cons x xs =>
      simp only [List.map_cons, List.cons.injEq] at h
      obtain ⟨h1, h2⟩ := h
      obtain ⟨a, e⟩ := pr
      simp only [relErrTestAux, h1, List.foldl_cons]
      exact ih xs h2 _

/-- One `maxRegr` update keeps the invariant
`0 ≤ maxRegr ∨ maxRegr < -margin`. -/
theorem relErrStep_inv (margin m0 x : ℚ) (hm : 0 ≤ margin)
    (hinv : 0 ≤ m0 ∨ m0 < -margin) :
    0 ≤ relErrStep margin m0 x ∨ relErrStep margin m0 x < -margin := by
  unfold relErrStep
  split_ifs with h1 h2 h3
  · exact Or.inr h1
  · exact Or.inr (lt_of_le_of_lt (not_lt.mp h2) h1)
  · exact Or.inl (le_of_lt (lt_of_le_of_lt hm h3.1))
  · exact hinv

/-- One `maxRegr` update crosses `-margin` exactly when the old value
or the new relative error does. -/
theorem relErrStep_lt_iff (margin m0 x : ℚ) (hm : 0 ≤ margin) :
    (relErrStep margin m0 x < -margin ↔ (m0 < -margin ∨ x < -margin)) := by
  unfold relErrStep
  split_ifs with h1 h2 h3
  · simp [h1]
  · have hlt : m0 < -margin := lt_of_le_of_lt (not_lt.mp h2) h1
    simp [hlt, h1]
  · have hx : ¬ (x < -margin) := h1
    have hm0 : ¬ (m0 < -margin) :=
      not_lt.mpr (le_trans (neg_nonpos.mpr hm) h3.2.2)
    simp [hx, hm0]
  · simp [h1]

/-- The final `maxRegr` crosses `-margin` exactly when some compared
relative error does. -/
theorem relErrFold_lt_iff (margin : ℚ) (hm : 0 ≤ margin) (rs : List ℚ) (m0 : ℚ)
    (hinv : 0 ≤ m0 ∨ m0 < -margin) :
    (rs.foldl (relErrStep margin) m0 < -margin ↔
      (m0 < -margin ∨ ∃ x ∈ rs, x < -margin)) := by
  induction rs generalizing m0 with
  | nil => simp
  | cons x xs ih =>
    rw [List.foldl_cons, ih _ (relErrStep_inv margin m0 x hm hinv), relErrStep_lt_iff _ _ _ hm,
      List.exists_mem_cons_iff]
    tauto

/-- A concrete actual `Stats` with rolled-up value 90 (a 10%
regression against `cStat100`). -/
def cStat90 : Stats := ⟨"actual run", [("Computation.Avg", ⟨90, "GFlops", some true⟩)]⟩

/-- A concrete actual `Stats` with rolled-up value 98 (a 2% deficit
against `cStat100`). -/
def cStat98 : Stats := ⟨"actual run", [("Computation.Avg", ⟨98, "GFlops", some true⟩)]⟩

/-- C3: in relative-error mode with margin `m ≥ 0`, the test raises the
performance-regression error exactly when some compared pair has
`actual - reference < -m`; concretely with reference value 100 and
margin `0.05`, an actual value of 90 fails with worst regression `-0.1`
(about 10%) while an actual value of 98 passes. -/
theorem relative_error_regression_verdict (margin : ℚ) (pairs : List (Stats × Stats))
    (rs : List ℚ) (hm : 0 ≤ margin)
    (h : pairs.map (fun pr => statsSub pr.1 pr.2) = rs.map (fun x => Except.ok (some x))) :
    (relativeErrorTestRun margin pairs = Except.error TestErr.perfRegression ↔
      ∃ x ∈ rs, x < -margin) ∧
    statsSub cStat90 cStat100 = Except.ok (some (-(1 / 10))) ∧
    relErrTestAux (1 / 20) [(cStat90, cStat100)] 0 = Except.ok (-(1 / 10)) ∧
    relativeErrorTestRun (1 / 20) [(cStat90, cStat100)] = Except.error TestErr.perfRegression ∧
    relativeErrorTestRun (1 / 20) [(cStat98, cStat100)] = Except.ok () := by
  have hct : containsTime "Computation.Avg" = false := by decide
  have hsub90 : statsSub cStat90 cStat100 = Except.ok (some (-(1 / 10))) := by
    simp only [cStat90, cStat100, statsSub, statsSubAux, PerfEntry.rolledUp, Option.getD,
      lookupKey, if_pos rfl, relErrorOf, hct, if_false]
    norm_num
  have hsub98 : statsSub cStat98 cStat100 = Except.ok (some (-(1 / 50))) := by
    simp only [cStat98, cStat100, statsSub, statsSubAux, PerfEntry.rolledUp, Option.getD,
      lookupKey, if_pos rfl, relErrorOf, hct, if_false]
    norm_num
  have haux90 : relErrTestAux (1 / 20) [(cStat90, cStat100)] 0 = Except.ok (-(1 / 10)) := by
    simp only [relErrTestAux, hsub90, relErrStep]
    norm_num
  have haux98 : relErrTestAux (1 / 20) [(cStat98, cStat100)] 0 = Except.ok 0 := by
    simp only [relErrTestAux, hsub98, relErrStep]
    norm_num
  refine ⟨?_, hsub90, haux90, ?_, ?_⟩
  · have hrw : relativeErrorTestRun margin pairs =
        (if rs.foldl (relErrStep margin) 0 < -margin then Except.error TestErr.perfRegression
         else Except.ok ()) := by
      rw [relativeErrorTestRun, relErrTestAux_ok margin pairs rs h 0]
    rw [hrw]
    have h0 : ¬ ((0 : ℚ) < -margin) := not_lt.mpr (neg_nonpos.mpr hm)
    by_cases hlt : rs.foldl (relErrStep margin) 0 < -margin
    · rw [if_pos hlt]
      simp only [true_iff, iff_true]
      have := (relErrFold_lt_iff margin hm rs 0 (Or.inl le_rfl)).mp hlt
      tauto
    · rw [if_neg hlt]
      constructor
      · intro hc
        exact absurd hc (by simp)
      · intro hex
        exact absurd ((relErrFold_lt_iff margin hm rs 0 (Or.inl le_rfl)).mpr (Or.inr hex)) hlt
  · rw [relativeErrorTestRun, haux90]
    norm_num
  · rw [relativeErrorTestRun, haux98]
    norm_num

/-- Witness for C3 at the concrete 90-vs-100 regression pair with
margin `0.05`. -/
theorem relative_error_regression_verdict_witness :
    ((relativeErrorTestRun (1 / 20) [(cStat90, cStat100)] =
        Except.error TestErr.perfRegression ↔
      ∃ x ∈ [-(1 / 10 : ℚ)], x < -(1 / 20)) ∧
    statsSub cStat90 cStat100 = Except.ok (some (-(1 / 10))) ∧
    relErrTestAux (1 / 20) [(cStat90, cStat100)] 0 = Except.ok (-(1 / 10)) ∧
    relativeErrorTestRun (1 / 20) [(cStat90, cStat100)] = Except.error TestErr.perfRegression ∧
    relativeErrorTestRun (1 / 20) [(cStat98, cStat100)] = Except.ok ()) ∧
    (0 : ℚ) ≤ 1 / 20 := by
  have hm : (0 : ℚ) ≤ 1 / 20 := by norm_num
  have hct : containsTime "Computation.Avg" = false := by decide
  have hsub90 : statsSub cStat90 cStat100 = Except.ok (some (-(1 / 10))) := by
    simp only [cStat90, cStat100, statsSub, statsSubAux, PerfEntry.rolledUp, Option.getD,
      lookupKey, if_pos rfl, relErrorOf, hct, if_false]
    norm_num
  have h := relative_error_regression_verdict (1 / 20) [(cStat90, cStat100)] [-(1 / 10)] hm
    (by simp [hsub90])
  exact ⟨h, hm⟩

/-! ## Claim C8: the MPI check precedes all side effects -/

/-- C8: for a kernel that declares MPI required, when MPI is
unavailable `Offload.run` raises the missing-dependency condition
(`MissingDependenciesError(DEP_MPI)`) with an empty effect trace: no
executable path is resolved, no file is staged and no process is
launched. -/
theorem run_mpi_check_first (o : OffloadModel) (k : KernelModel) (env : RunEnv)
    (paramList : List Params) (devParamList? : Option (List Params))
    (hreq : k.isMpiRequired = true) (hmpi : env.mpiAvailable = false) :
    offloadRun o k env paramList devParamList? =
      (Except.error (RunError.missingDependencies Dep.mpi), []) := by
  simp [offloadRun, hreq, hmpi]

/-- Oracle environment for the C8 witness: MPI unavailable. -/
def runEnvNoMpi : RunEnv :=
  ⟨false, Except.ok none, false, 0, true, true, true,
   fun _ => 0, fun _ => 0, fun _ => [], fun _ => ⟨"", []⟩⟩

/-- A kernel declaring MPI required, for the C8 witness. -/
def mpiKernel : KernelModel :=
  ⟨"hpcg", true, "device_index", ParamType.value, [], [], [], false, false, [], ""⟩

/-- A host-only offload strategy (`LocalOffload`). -/
def localOffload : OffloadModel := ⟨"local", true, false⟩

/-- Witness for C8 at a concrete kernel and environment. -/
theorem run_mpi_check_first_witness :
    offloadRun localOffload mpiKernel runEnvNoMpi [] none =
      (Except.error (RunError.missingDependencies Dep.mpi), []) :=
  run_mpi_check_first localOffload mpiKernel runEnvNoMpi [] none rfl rfl

/-! ## Claim C9: host exit-code classification after await -/

/-- C9: once the host process of the first parameter has been awaited
(host-only offload, executable resolved and existing, environment
parameters resolvable, launch permitted), a host exit code of exactly
127 raises `MissingDependenciesError(DEP_REDIST)`; every other non-zero
exit code raises `CalledProcessError` carrying the exit code and the
full command line `' '.join(hostArgs)`; and the host launch with that
full command line is in the effect trace. -/
theorem run_host_exit_classification
    (o : OffloadModel) (k : KernelModel) (env : RunEnv) (p : Params) (rest : List Params)
    (path : String)
    (hname : o.name = "local") (hhost : o.runHost = true) (hdev : o.runDev = false)
    (hmpi : k.isMpiRequired = false)
    (hres : env.execResolve = Except.ok (some path))
    (hex : env.pathExists = true)
    (henv : envLookupsOk k p = true)
    (hperm : env.hostPermission = true) :
    (env.hostReturnCode 0 = 127 →
      (offloadRun o k env (p :: rest) none).1 =
        Except.error (RunError.missingDependencies Dep.redist)) ∧
    (∀ c : Int, env.hostReturnCode 0 = c → c ≠ 0 → c ≠ 127 →
      (offloadRun o k env (p :: rest) none).1 =
        Except.error (RunError.calledProcess c (strJoin " " (hostArgsOf k path p)))) ∧
    Effect.launchHost (hostArgsOf k path p) ∈ (offloadRun o k env (p :: rest) none).2 := by
  have hname2 : ¬ (o.name ≠ "native" ∧ o.name ≠ "local") := by
    rw [hname]
    simp
  refine ⟨?_, ?_, ?_⟩
  · intro h127
    simp [offloadRun, runLoop, hmpi, hres, hex, hname2, hdev, hhost, henv, hperm, h127]
  · intro c hc hc0 hc127
    have h127 : ¬ (env.hostReturnCode 0 = 127) := by rw [hc]; exact fun h => hc127 h
    have h0 : env.hostReturnCode 0 ≠ 0 := by rw [hc]; exact hc0
    simp [offloadRun, runLoop, hmpi, hres, hex, hname2, hdev, hhost, henv, hperm, h127, h0, hc,
      hc0, hc127]
  · by_cases h127 : env.hostReturnCode 0 = 127
    · simp [offloadRun, runLoop, hmpi, hres, hex, hname2, hdev, hhost, henv, hperm, h127]
    · by_cases h0 : env.hostReturnCode 0 = 0
      · simp [offloadRun, runLoop, hmpi, hres, hex, hname2, hdev, hhost, henv, hperm, h127, h0]
      · simp [offloadRun, runLoop, hmpi, hres, hex, hname2, hdev, hhost, henv, hperm, h127, h0]

/-- Oracle environment for the C9 witness: executable found, host exit
code 127. -/
def runEnv127 : RunEnv :=
  ⟨true, Except.ok (some "/usr/bin/k"), true, 0, true, true, true,
   fun _ => 0, fun _ => 127, fun _ => [], fun _ => ⟨"", []⟩⟩

/-- A plain host-side kernel for the C9 witness. -/
def plainKernel : KernelModel :=
  ⟨"sgemm", false, "device_index", ParamType.value, [], [], [], false, false, [], ""⟩

/-- An empty parameter set for the C9 witness. -/
def emptyParams : Params := ⟨[], [], [], []⟩

/-- Witness for C9: exit code 127 is classified as the missing
redistributable dependency, and the launch is in the trace. -/
theorem run_host_exit_classification_witness :
    ((runEnv127.hostReturnCode 0 = 127 →
      (offloadRun localOffload plainKernel runEnv127 [emptyParams] none).1 =
        Except.error (RunError.missingDependencies Dep.redist)) ∧
    (∀ c : Int, runEnv127.hostReturnCode 0 = c → c ≠ 0 → c ≠ 127 →
      (offloadRun localOffload plainKernel runEnv127 [emptyParams] none).1 =
        Except.error (RunError.calledProcess c
          (strJoin " " (hostArgsOf plainKernel "/usr/bin/k" emptyParams)))) ∧
    Effect.launchHost (hostArgsOf plainKernel "/usr/bin/k" emptyParams) ∈
      (offloadRun localOffload plainKernel runEnv127 [emptyParams] none).2) ∧
    (offloadRun localOffload plainKernel runEnv127 [emptyParams] none).1 =
      Except.error (RunError.missingDependencies Dep.redist) := by
  have h := run_host_exit_classification localOffload plainKernel runEnv127 emptyParams []
    "/usr/bin/k" rfl rfl rfl rfl rfl rfl (by decide) rfl
  exact ⟨h, h.1 rfl⟩

/-! ## Claim C1: `StatsCollection.extend` -/

theorem length_filter_mono {p q : String → Bool} (l : List String)
    (himp : ∀ e, q e = true → p e = true) :
    (l.filter q).length ≤ (l.filter p).length := by
  induction l with
  | nil => simp
  | cons b bs ih =>
    by_cases hq : q b = true
    · have hp := himp b hq
      simp only [List.filter_cons, hq, hp, if_true, List.length_cons]
      exact Nat.succ_le_succ ih
    · by_cases hp : p b = true
      · simp only [List.filter_cons, hq, hp, if_true, if_false, List.length_cons]
        exact Nat.le_succ_of_le ih
      · simp only [List.filter_cons, hq, hp, if_false]
        exact ih

theorem length_filter_lt {p q : String → Bool} (l : List String)
    (himp : ∀ e, q e = true → p e = true) (a : String) (ha : a ∈ l)
    (hpa : p a = true) (hqa : q a = false) :
    (l.filter q).length < (l.filter p).length := by
  induction l with
  | nil => cases ha
  | cons b bs ih =>
    rcases List.mem_cons.mp ha with h | h
    · have hpb : p b = true := h ▸ hpa
      have hqb : q b = false := h ▸ hqa
      simp only [List.filter_cons, hpb, hqb, if_true, if_false, List.length_cons,
        Bool.false_eq_true]
      exact Nat.lt_succ_of_le (length_filter_mono bs himp)
    · by_cases hq : q b = true
      · have hp := himp b hq
        simp only [List.filter_cons, hq, hp, if_true, List.length_cons]
        exact Nat.succ_lt_succ (ih h)
      · by_cases hp : p b = true
        · simp only [List.filter_cons, hq, hp, if_true, if_false, List.length_cons]
          exact Nat.lt_succ_of_lt (ih h)
        · simp only [List.filter_cons, hq, hp, if_false]
          exact ih h

theorem freshKeyAux_not_mem (existing : List String) :
    ∀ (fuel : Nat) (k : String),
      (existing.filter (fun e => decide (k.length ≤ e.length))).length < fuel →
      freshKeyAux existing fuel k ∉ existing := by
  intro fuel
  induction fuel with
  | zero => exact fun k h => absurd h (Nat.not_lt_zero _)
  | succ n ih =>
    intro k h
    rw [freshKeyAux]
    by_cases hk : k ∈ existing
    · rw [if_pos hk]
      apply ih
      have hlen : (k ++ " ext").length = k.length + 4 := by
        rw [String.length_append]
        rfl
      have hdec : (existing.filter (fun e => decide ((k ++ " ext").length ≤ e.length))).length <
          (existing.filter (fun e => decide (k.length ≤ e.length))).length := by
        apply length_filter_lt existing ?_ k hk ?_ ?_
        · intro e he
          rw [hlen] at he
          simp only [decide_eq_true_eq] at he ⊢
          omega
        · simp
        · rw [hlen]
          simp
      omega
    · rw [if_neg hk]
      exact hk

theorem freshKey_not_mem (existing : List String) (k : String) :
    freshKey existing k ∉ existing := by
  apply freshKeyAux_not_mem
  have := List.length_filter_le (fun e => decide (k.length ≤ e.length)) existing
  omega

theorem setKey_of_not_mem {β : Type} (l : List (String × β)) (k : String) (v : β)
    (h : lookupKey k l = none) : setKey l k v = l ++ [(k, v)] := by
  simp [setKey, h]

theorem lookupKey_append {β : Type} (l l2 : List (String × β)) (k : String) :
    lookupKey k (l ++ l2) =
      (match lookupKey k l with
       | some v => some v
       | none => lookupKey k l2) := by
  induction l with
  | nil => simp [lookupKey]
  | cons p ps ih =>
    by_cases hp : p.1 = k
    · simp [lookupKey, hp]
    · simp [lookupKey, hp, ih]

theorem lookupKey_append_of_some {β : Type} (l l2 : List (String × β)) (k : String) (v : β)
    (h : lookupKey k l = some v) : lookupKey k (l ++ l2) = some v := by
  rw [lookupKey_append, h]

theorem lookupKey_append_singleton_self {β : Type} (l : List (String × β)) (k : String) (v : β)
    (h : lookupKey k l = none) : lookupKey k (l ++ [(k, v)]) = some v := by
  rw [lookupKey_append, h]
  simp [lookupKey]

theorem keysOf_append {β : Type} (l l2 : List (String × β)) :
    keysOf (l ++ l2) = keysOf l ++ keysOf l2 := by
  simp [keysOf]

theorem mergeStep_preserves (bases : List String) (acc : OffStore) (p : String × List Stats)
    (x : String) (v : List Stats) (h : lookupKey x acc = some v) :
    lookupKey x (mergeStep bases acc p) = some v := by
  unfold mergeStep
  split_ifs with hb
  · rw [setKey_of_not_mem _ _ _ ((lookupKey_eq_none_iff _ _).mpr (freshKey_not_mem _ _))]
    exact lookupKey_append_of_some _ _ _ _ h
  · exact h

theorem mergeStep_keys_sub (bases : List String) (acc : OffStore) (p : String × List Stats) :
    keysOf acc ⊆ keysOf (mergeStep bases acc p) := by
  unfold mergeStep
  split_ifs with hb
  · rw [setKey_of_not_mem _ _ _ ((lookupKey_eq_none_iff _ _).mpr (freshKey_not_mem _ _)),
      keysOf_append]
    exact fun x hx => List.mem_append_left _ hx
  · exact fun x hx => hx

theorem mergeFold_preserves (bases : List String) (offs : List (String × List Stats))
    (acc : OffStore) (x : String) (v : List Stats) (h : lookupKey x acc = some v) :
    lookupKey x (offs.foldl (mergeStep bases) acc) = some v := by
  induction offs generalizing acc with
  | nil => exact h
  | cons p ps ih => exact ih _ (mergeStep_preserves _ _ _ _ _ h)

theorem mergeFold_keys_sub (bases : List String) (offs : List (String × List Stats))
    (acc : OffStore) : keysOf acc ⊆ keysOf (offs.foldl (mergeStep bases) acc) := by
  induction offs generalizing acc with
  | nil => exact fun x hx => hx
  | cons p ps ih => exact fun x hx => ih _ (mergeStep_keys_sub _ _ _ hx)

theorem mergeFold_retention (bases : List String) (offs : List (String × List Stats))
    (acc : OffStore) (p : String × List Stats) (hp : p ∈ offs)
    (hb : (splitOffload p.1).1 ∈ bases) :
    ∃ key, key ∉ keysOf acc ∧
      lookupKey key (offs.foldl (mergeStep bases) acc) = some p.2 := by
  induction offs generalizing acc with
  | nil => cases hp
  | cons q qs ih =>
    rcases List.mem_cons.mp hp with h | h
    · subst h
      refine ⟨freshKey (keysOf acc) p.1, freshKey_not_mem _ _, ?_⟩
      rw [List.foldl_cons]
      apply mergeFold_preserves
      rw [mergeStep, if_pos hb,
        setKey_of_not_mem _ _ _ ((lookupKey_eq_none_iff _ _).mpr (freshKey_not_mem _ _))]
      exact lookupKey_append_singleton_self _ _ _
        ((lookupKey_eq_none_iff _ _).mpr (freshKey_not_mem _ _))
    · rw [List.foldl_cons]
      obtain ⟨key, hk1, hk2⟩ := ih (mergeStep bases acc q) h
      exact ⟨key, fun hc => hk1 (mergeStep_keys_sub _ _ _ hc), hk2⟩

theorem mergeFold_keys (bases : List String) (offs : List (String × List Stats))
    (acc : OffStore) :
    ∀ x ∈ keysOf (offs.foldl (mergeStep bases) acc),
      x ∈ keysOf acc ∨ ∃ p ∈ offs, (splitOffload p.1).1 ∈ bases ∧
        lookupKey x (offs.foldl (mergeStep bases) acc) = some p.2 := by
  induction offs generalizing acc with
  | nil => exact fun x hx => Or.inl hx
  | cons q qs ih =>
    intro x hx
    rw [List.foldl_cons] at hx ⊢
    rcases ih (mergeStep bases acc q) x hx with h | ⟨p, hp, hb, hl⟩
    · by_cases hbq : (splitOffload q.1).1 ∈ bases
      · rw [mergeStep, if_pos hbq,
          setKey_of_not_mem _ _ _ ((lookupKey_eq_none_iff _ _).mpr (freshKey_not_mem _ _)),
          keysOf_append] at h
        rcases List.mem_append.mp h with h | h
        · exact Or.inl h
        · have hxk : x = freshKey (keysOf acc) q.1 := by
            simpa [keysOf] using h
          refine Or.inr ⟨q, List.mem_cons_self _ _, hbq, ?_⟩
          subst hxk
          apply mergeFold_preserves
          rw [mergeStep, if_pos hbq,
            setKey_of_not_mem _ _ _ ((lookupKey_eq_none_iff _ _).mpr (freshKey_not_mem _ _))]
          exact lookupKey_append_singleton_self _ _ _
            ((lookupKey_eq_none_iff _ _).mpr (freshKey_not_mem _ _))
      · rw [mergeStep, if_neg hbq] at h
        exact Or.inl h
    · exact Or.inr ⟨p, List.mem_cons_of_mem _ hp, hb, hl⟩

theorem foldl_congr_id {α β : Type} (l : List β) (f : α → β → α) (init : α)
    (h : ∀ (acc : α), ∀ b ∈ l, f acc b = acc) : l.foldl f init = init := by
  induction l generalizing init with
  | nil => rfl
  | cons b bs ih =>
    rw [List.foldl_cons, h init b (List.mem_cons_self _ _)]
    exact ih _ (fun acc c hc => h acc c (List.mem_cons_of_mem _ hc))

theorem renameKernels_id (st : Store)
    (h : ∀ pr ∈ deprecationPairs, lookupKey pr.1 st = none) :
    renameKernels st = st := by
  have h1 : lookupKey "1dfft" st = none :=
    h ("1dfft", "onedfft") (by simp [deprecationPairs])
  have h2 : lookupKey "1dfft_streaming" st = none :=
    h ("1dfft_streaming", "onedfft_streaming") (by simp [deprecationPairs])
  have h3 : lookupKey "2dfft" st = none :=
    h ("2dfft", "twodfft") (by simp [deprecationPairs])
  have h4 : lookupKey "dgemm_mkl" st = none :=
    h ("dgemm_mkl", "dgemm") (by simp [deprecationPairs])
  have h5 : lookupKey "sgemm_mkl" st = none :=
    h ("sgemm_mkl", "sgemm") (by simp [deprecationPairs])
  have h6 : lookupKey "linpack_dp" st = none :=
    h ("linpack_dp", "linpack") (by simp [deprecationPairs])
  have h7 : lookupKey "stream_mccalpin" st = none :=
    h ("stream_mccalpin", "stream") (by simp [deprecationPairs])
  simp [renameKernels, deprecationPairs, h1, h2, h3, h4, h5, h6, h7]

theorem renameLinux_id (offs : OffStore)
    (h : ∀ oo ∈ keysOf offs, strStartsWith oo "linux_native" = false) :
    renameLinuxNativeOffs offs = offs := by
  apply foldl_congr_id
  intro acc oo hoo
  rw [h oo hoo]
  simp

theorem lookupKey_mapUpdate_ne {β : Type} (l : List (String × β)) (g k : String) (v : β)
    (h : k ≠ g) :
    lookupKey k (l.map (fun p => if p.1 = g then (g, v) else p)) = lookupKey k l := by
  induction l with
  | nil => rfl
  | cons p ps ih =>
    by_cases hp : p.1 = g
    · have hgk : ¬ (g = k) := fun hc => h hc.symm
      have hpk : ¬ (p.1 = k) := by rw [hp]; exact hgk
      simp only [List.map_cons, if_pos hp, lookupKey, if_neg hgk, if_neg hpk]
      exact ih
    · simp only [List.map_cons, if_neg hp, lookupKey, ih]

theorem lookupKey_setKey_ne {β : Type} (l : List (String × β)) (g k : String) (v : β)
    (h : k ≠ g) : lookupKey k (setKey l g v) = lookupKey k l := by
  rw [setKey]
  split_ifs with hs
  · exact lookupKey_mapUpdate_ne l g k v h
  · rw [lookupKey_append]
    cases hl : lookupKey k l with
    | some w => rfl
    | none =>
      show lookupKey k [(g, v)] = none
      have hgk : g ≠ k := Ne.symm h
      simp [lookupKey, hgk]

theorem lookupKey_gemmStep_ne (acc : Store) (g k : String) (h : k ≠ g) :
    lookupKey k (gemmStep acc g) = lookupKey k acc := by
  rw [gemmStep]
  cases hl : lookupKey g acc with
  | some offs => exact lookupKey_setKey_ne _ _ _ _ h
  | none => rfl

theorem lookupKey_map_entry {β γ : Type} (l : List (String × β)) (g : String → β → γ)
    (k : String) (val : β) (h : lookupKey k l = some val) :
    lookupKey k (l.map (fun kv => (kv.1, g kv.1 kv.2))) = some (g k val) := by
  induction l with
  | nil => cases h
  | cons p ps ih =>
    by_cases hp : p.1 = k
    · rw [lookupKey, if_pos hp] at h
      injection h with hval
      show lookupKey k ((p.1, g p.1 p.2) :: ps.map (fun kv => (kv.1, g kv.1 kv.2))) = _
      rw [lookupKey]
      simp only [if_pos hp]
      rw [hp, hval]
    · rw [lookupKey, if_neg hp] at h
      show lookupKey k ((p.1, g p.1 p.2) :: ps.map (fun kv => (kv.1, g kv.1 kv.2))) = _
      rw [lookupKey]
      simp only [if_neg hp]
      exact ih h

/-- Counterexample to C1: the self store holds kernel `k` with offload
base name `local`; the other store holds the same kernel with the
non-conflicting base name `native`.  `extend` leaves the self store
unchanged — the non-conflicting pair of the other collection is not
unioned in, contradicting the claim. -/
theorem extend_union_cex :
    extendStore [("k", [("local__tagA", [⟨"dA", []⟩])])]
        [("k", [("native__tagB", [⟨"dB", []⟩])])] =
      [("k", [("local__tagA", [⟨"dA", []⟩])])] ∧
    lookupKey "native__tagB"
        ((lookupKey "k"
          (extendStore [("k", [("local__tagA", [⟨"dA", []⟩])])]
            [("k", [("native__tagB", [⟨"dB", []⟩])])])).getD []) = none := by
  decide

/-- C1 (amended): `extend` merges only the offload entries of kernels
present in both collections whose offload base name collides with a
base name already in the self store (after the legacy renames, which
the hypotheses make inapplicable here); each such entry is stored under
a fresh `' ext'`-suffixed key distinct from every existing key, so both
variants remain queryable and no self entry is dropped or overwritten;
entries with non-colliding base names are not merged. -/
theorem extend_merges_only_collisions
    (selfStore otherStore : Store) (k : String) (selfOffs otherOffs : OffStore)
    (hnorename1 : ∀ pr ∈ deprecationPairs, lookupKey pr.1 otherStore = none)
    (hnorename2 : ∀ kv ∈ otherStore, ∀ oo ∈ keysOf kv.2,
      strStartsWith oo "linux_native" = false)
    (hgemm1 : k ≠ "sgemm") (hgemm2 : k ≠ "dgemm")
    (hk1 : lookupKey k selfStore = some selfOffs)
    (hk2 : lookupKey k otherStore = some otherOffs) :
    lookupKey k (extendStore selfStore otherStore) = some (mergeOffs selfOffs otherOffs) ∧
    (∀ x v, lookupKey x selfOffs = some v →
      lookupKey x (mergeOffs selfOffs otherOffs) = some v) ∧
    (∀ p ∈ otherOffs,
      (splitOffload p.1).1 ∈ (keysOf selfOffs).map (fun oo => (splitOffload oo).1) →
      ∃ key, key ∉ keysOf selfOffs ∧
        lookupKey key (mergeOffs selfOffs otherOffs) = some p.2) ∧
    (∀ x ∈ keysOf (mergeOffs selfOffs otherOffs),
      x ∈ keysOf selfOffs ∨ ∃ p ∈ otherOffs,
        (splitOffload p.1).1 ∈ (keysOf selfOffs).map (fun oo => (splitOffload oo).1) ∧
        lookupKey x (mergeOffs selfOffs otherOffs) = some p.2) := by
  have ho1 : renameKernels otherStore = otherStore := renameKernels_id otherStore hnorename1
  have ho2 : (renameKernels otherStore).map
      (fun kv => (kv.1, renameLinuxNativeOffs kv.2)) = otherStore := by
    rw [ho1]
    have hcongr : ∀ kv ∈ otherStore, (kv.1, renameLinuxNativeOffs kv.2) = kv := by
      intro kv hkv
      rw [renameLinux_id kv.2 (hnorename2 kv hkv)]
    calc otherStore.map (fun kv => (kv.1, renameLinuxNativeOffs kv.2))
        = otherStore.map id := List.map_congr_left hcongr
      _ = otherStore := List.map_id otherStore
  have ho3 : lookupKey k (gemmRetag otherStore) = some otherOffs := by
    rw [gemmRetag]
    simp only [List.foldl_cons, List.foldl_nil]
    rw [lookupKey_gemmStep_ne _ _ _ hgemm2, lookupKey_gemmStep_ne _ _ _ hgemm1, hk2]
  have hmain : lookupKey k (extendStore selfStore otherStore) =
      some (mergeOffs selfOffs otherOffs) := by
    rw [extendStore]
    simp only [ho2]
    have hfun : ∀ kv ∈ selfStore,
        (match lookupKey kv.1 (gemmRetag otherStore) with
         | some otherOffs2 => (kv.1, mergeOffs kv.2 otherOffs2)
         | none => kv) =
        (kv.1, (fun key offs =>
          match lookupKey key (gemmRetag otherStore) with
          | some otherOffs2 => mergeOffs offs otherOffs2
          | none => offs) kv.1 kv.2) := by
      intro kv _
      cases hl : lookupKey kv.1 (gemmRetag otherStore) with
      | some w => simp [hl]
      | none => simp [hl]
    rw [List.map_congr_left hfun]
    have hme := lookupKey_map_entry selfStore
      (fun key offs =>
        match lookupKey key (gemmRetag otherStore) with
        | some otherOffs2 => mergeOffs offs otherOffs2
        | none => offs) k selfOffs hk1
    simp only [ho3] at hme
    exact hme
  refine ⟨hmain, ?_, ?_, ?_⟩
  · intro x v h
    exact mergeFold_preserves _ _ _ _ _ h
  · intro p hp hb
    exact mergeFold_retention _ _ _ p hp hb
  · exact mergeFold_keys _ _ _

/-- Self store for the C1 witness: kernel `stream` with one offload
entry of base name `local`. -/
def c1SelfStore : Store := [("stream", [("local__tagA", [⟨"dA", []⟩])])]

/-- Other store for the C1 witness: same kernel, colliding base name
`local` under a different tag. -/
def c1OtherStore : Store := [("stream", [("local__tagB", [⟨"dB", []⟩])])]

/-- Witness for C1 (amended) at the concrete colliding stores. -/
theorem extend_merges_only_collisions_witness :
    lookupKey "stream" (extendStore c1SelfStore c1OtherStore) =
      some (mergeOffs [("local__tagA", [⟨"dA", []⟩])] [("local__tagB", [⟨"dB", []⟩])]) ∧
    (∀ x v, lookupKey x [("local__tagA", [(⟨"dA", []⟩ : Stats)])] = some v →
      lookupKey x (mergeOffs [("local__tagA", [⟨"dA", []⟩])]
        [("local__tagB", [⟨"dB", []⟩])]) = some v) ∧
    (∀ p ∈ [("local__tagB", [(⟨"dB", []⟩ : Stats)])],
      (splitOffload p.1).1 ∈ (keysOf [("local__tagA", [(⟨"dA", []⟩ : Stats)])]).map
        (fun oo => (splitOffload oo).1) →
      ∃ key, key ∉ keysOf [("local__tagA", [(⟨"dA", []⟩ : Stats)])] ∧
        lookupKey key (mergeOffs [("local__tagA", [⟨"dA", []⟩])]
          [("local__tagB", [⟨"dB", []⟩])]) = some p.2) ∧
    (∀ x ∈ keysOf (mergeOffs [("local__tagA", [(⟨"dA", []⟩ : Stats)])]
        [("local__tagB", [⟨"dB", []⟩])]),
      x ∈ keysOf [("local__tagA", [(⟨"dA", []⟩ : Stats)])] ∨
      ∃ p ∈ [("local__tagB", [(⟨"dB", []⟩ : Stats)])],
        (splitOffload p.1).1 ∈ (keysOf [("local__tagA", [(⟨"dA", []⟩ : Stats)])]).map
          (fun oo => (splitOffload oo).1) ∧
        lookupKey x (mergeOffs [("local__tagA", [⟨"dA", []⟩])]
          [("local__tagB", [⟨"dB", []⟩])]) = some p.2) :=
  extend_merges_only_collisions c1SelfStore c1OtherStore "stream"
    [("local__tagA", [⟨"dA", []⟩])] [("local__tagB", [⟨"dB", []⟩])]
    (by decide) (by decide) (by decide) (by decide) (by decide) (by decide)

/-! ## Claim C7: the value-grammar round trip -/

theorem parseTokens_keys_aux (validate : Validator) (names : List String) :
    ∀ (n : Nat) (toks : List String), toks.length ≤ n → ∀ (i : Nat)
      (acc res : List (String × Option String)),
      parseTokens validate names toks i acc = Except.ok res → keysOf res = keysOf acc := by
  intro n
  induction n with
  | zero =>
    intro toks hlen i acc res h
    have htoks : toks = [] := List.eq_nil_of_length_eq_zero (Nat.le_zero.mp hlen)
    subst htoks
    cases h
    rfl
  | succ n ih =>
    intro toks hlen i acc res h
    cases toks with
    | nil =>
      cases h
      rfl
    | cons tok rest =>
      cases rest with
      | nil =>
        simp only [parseTokens] at h
        repeat' split at h
        all_goals first
          | (cases h; rfl)
          | (injection h with h2; rw [← h2, keysOf_setParam])
          | (exact absurd h (by simp))
      | cons v rest2 =>
        simp only [parseTokens] at h
        repeat' split at h
        all_goals first
          | (cases h; rfl)
          | (injection h with h2; rw [← h2, keysOf_setParam])
          | (rw [ih (v :: rest2) (by simp only [List.length_cons] at hlen ⊢; omega) _ _ _ h,
              keysOf_setParam])
          | (rw [ih rest2 (by simp only [List.length_cons] at hlen ⊢; omega) _ _ _ h,
              keysOf_setParam])
          | (exact absurd h (by simp))

theorem parseTokens_keys (validate : Validator) (names : List String)
    (toks : List String) (i : Nat) (acc res : List (String × Option String))
    (h : parseTokens validate names toks i acc = Except.ok res) :
    keysOf res = keysOf acc :=
  parseTokens_keys_aux validate names toks.length toks le_rfl i acc res h

theorem assignPositional_keys (validate : Validator) :
    ∀ (l : List (String × String)) (acc res : List (String × Option String)),
      assignPositional validate l acc = Except.ok res → keysOf res = keysOf acc := by
  intro l
  induction l with
  | nil =>
    intro acc res h
    cases h
    rfl
  | cons pr rest ih =>
    intro acc res h
    obtain ⟨pn, pp⟩ := pr
    simp only [assignPositional] at h
    split at h
    · exact absurd h (by simp)
    · rw [ih _ _ h, keysOf_setParam]

theorem keysOf_initMap (names : List String) :
    keysOf (names.map (fun n => (n, (none : Option String)))) = names := by
  induction names with
  | nil => rfl
  | cons n ns ih => simp only [List.map_cons, keysOf_cons, ih]

theorem defaultStep_keys (defaults : List (String × String))
    (acc : List (String × Option String)) (pn : String) :
    keysOf (defaultStep defaults acc pn) = keysOf acc := by
  rw [defaultStep]
  split
  · rw [keysOf_setParam]
  · rfl

theorem applyDefaults_keys : ∀ (names : List String) (defaults : List (String × String))
    (m : List (String × Option String)),
    keysOf (applyDefaults names defaults m) = keysOf m := by
  intro names
  induction names with
  | nil => intro defaults m; rfl
  | cons n ns ih =>
    intro defaults m
    show keysOf (applyDefaults ns defaults (defaultStep defaults m n)) = keysOf m
    rw [ih defaults _, defaultStep_keys]

theorem mem_keys_of_lookup {β : Type} {l : List (String × β)} {x : String} {v : β}
    (h : lookupKey x l = some v) : x ∈ keysOf l := by
  by_contra hc
  rw [(lookupKey_eq_none_iff x l).mpr hc] at h
  cases h

theorem defaultStep_lookup_ne (defaults : List (String × String))
    (acc : List (String × Option String)) (pn x : String) (h : x ≠ pn) :
    lookupKey x (defaultStep defaults acc pn) = lookupKey x acc := by
  rw [defaultStep]
  split
  · exact lookupKey_setParam_ne _ _ _ _ h
  · rfl

theorem applyDefaults_lookup_not_mem : ∀ (names : List String)
    (defaults : List (String × String)) (m : List (String × Option String)) (x : String),
    x ∉ names → lookupKey x (applyDefaults names defaults m) = lookupKey x m := by
  intro names
  induction names with
  | nil => intro defaults m x _; rfl
  | cons n ns ih =>
    intro defaults m x hx
    have hxn : x ≠ n := fun hc => hx (hc ▸ List.mem_cons_self n ns)
    have hxs : x ∉ ns := fun hc => hx (List.mem_cons_of_mem _ hc)
    show lookupKey x (applyDefaults ns defaults (defaultStep defaults m n)) = lookupKey x m
    rw [ih defaults _ x hxs, defaultStep_lookup_ne _ _ _ _ hxn]

theorem applyDefaults_lookup_mem : ∀ (names : List String)
    (defaults : List (String × String)) (m : List (String × Option String)) (x : String),
    names.Nodup → x ∈ names →
    lookupKey x (applyDefaults names defaults m) =
      (match lookupKey x m with
       | some none => some (lookupKey x defaults)
       | other => other) := by
  intro names
  induction names with
  | nil => intro _ _ x _ hx; cases hx
  | cons n ns ih =>
    intro defaults m x hnd hx
    have hnd2 := List.nodup_cons.mp hnd
    rcases List.mem_cons.mp hx with h | h
    · subst h
      show lookupKey x (applyDefaults ns defaults (defaultStep defaults m x)) = _
      rw [applyDefaults_lookup_not_mem ns defaults _ x hnd2.1, defaultStep]
      cases hm : lookupKey x m with
      | none => exact hm
      | some v? =>
        cases v? with
        | none =>
          show lookupKey x (setParam m x (lookupKey x defaults)) = some (lookupKey x defaults)
          exact lookupKey_setParam_self _ _ _ (mem_keys_of_lookup hm)
        | some w => exact hm
    · have hxn : x ≠ n := fun hc => hnd2.1 (hc ▸ h)
      show lookupKey x (applyDefaults ns defaults (defaultStep defaults m n)) = _
      rw [ih defaults _ x hnd2.2 h, defaultStep_lookup_ne _ _ _ _ hxn]

/-- The (name, value) pairs that contribute to `value_str`, in schema
order. -/
def serPairs (p : Params) : List (String × String) :=
  p.paramNames.filterMap (fun pn =>
    match lookupKey pn p.params with
    | some (some v) => if pn ∈ p.paramQuiet then none else some (pn, v)
    | _ => none)

theorem valueStr_eq_pieces (p : Params) :
    p.valueStr = strJoin " " ((serPairs p).map (fun pr => "--" ++ pr.1 ++ " " ++ pr.2)) := by
  rw [Params.valueStr, serPairs, List.map_filterMap]
  congr 1
  apply List.filterMap_congr
  intro pn _
  cases lookupKey pn p.params with
  | none => rfl
  | some v? =>
    cases v? with
    | none => rfl
    | some v =>
      by_cases hq : pn ∈ p.paramQuiet
      · simp [hq]
      · simp [hq]

/-- The individual tokens of `value_str` before the whitespace split:
the long option and the raw value of every contributing pair. -/
def rawTokens : List (String × String) → List String
  | [] => []
  | pr :: rest => ("--" ++ pr.1) :: pr.2 :: rawTokens rest

/-- The tokens `value_str().split()` actually produces: an empty value
contributes no token of its own. -/
def flatTokens : List (String × String) → List String
  | [] => []
  | pr :: rest =>
    if pr.2 = "" then ("--" ++ pr.1) :: flatTokens rest
    else ("--" ++ pr.1) :: pr.2 :: flatTokens rest

theorem joinSep_pieces : ∀ (L : List (String × String)),
    joinSep [' '] ((L.map (fun pr => "--" ++ pr.1 ++ " " ++ pr.2)).map String.data) =
      joinSep [' '] ((rawTokens L).map String.data) := by
  intro L
  induction L with
  | nil => rfl
  | cons pr L2 ih =>
    cases L2 with
    | nil =>
      show ("--" ++ pr.1 ++ " " ++ pr.2).data =
        joinSep [' '] [("--" ++ pr.1).data, pr.2.data]
      simp [String.data_append, joinSep, List.append_assoc]
    | cons q L3 =>
      show ("--" ++ pr.1 ++ " " ++ pr.2).data ++ [' '] ++
          joinSep [' '] (((q :: L3).map (fun pr => "--" ++ pr.1 ++ " " ++ pr.2)).map String.data) =
        ("--" ++ pr.1).data ++ [' '] ++
          joinSep [' '] (pr.2.data :: ((rawTokens (q :: L3)).map String.data))
      rw [ih]
      have hrt : ∃ t2 tl, (rawTokens (q :: L3)).map String.data = t2 :: tl := by
        simp [rawTokens]
      obtain ⟨t2, tl, hry⟩ := hrt
      rw [hry]
      show ("--" ++ pr.1 ++ " " ++ pr.2).data ++ [' '] ++ joinSep [' '] (t2 :: tl) =
        ("--" ++ pr.1).data ++ [' '] ++ (pr.2.data ++ [' '] ++ joinSep [' '] (t2 :: tl))
      simp [String.data_append, List.append_assoc]

theorem splitChunksAux_sepfree : ∀ (l r cur : List Char), (∀ c ∈ l, isPySpace c = false) →
    splitChunksAux isPySpace (l ++ r) cur = splitChunksAux isPySpace r (l.reverse ++ cur) := by
  intro l
  induction l with
  | nil => intro r cur _; simp
  | cons c cs ih =>
    intro r cur h
    have hc : isPySpace c = false := h c (List.mem_cons_self _ _)
    show splitChunksAux isPySpace (c :: (cs ++ r)) cur = _
    rw [splitChunksAux, if_neg (by rw [hc]; exact Bool.false_ne_true)]
    rw [ih r (c :: cur) (fun d hd => h d (List.mem_cons_of_mem _ hd))]
    simp [List.reverse_cons, List.append_assoc]

theorem splitChunksAux_sep (r cur : List Char) :
    splitChunksAux isPySpace (' ' :: r) cur = cur.reverse :: splitChunksAux isPySpace r [] := by
  have hsp : isPySpace ' ' = true := rfl
  rw [splitChunksAux, if_pos hsp]

theorem pySplitChars_joinSep : ∀ (ts : List (List Char)),
    (∀ t ∈ ts, ∀ c ∈ t, isPySpace c = false) →
    pySplitChars (joinSep [' '] ts) = ts.filter (fun t => decide (t ≠ [])) := by
  intro ts
  induction ts with
  | nil => intro _; rfl
  | cons t ts2 ih =>
    intro h
    cases ts2 with
    | nil =>
      show pySplitChars t = _
      have h2 : splitChunksAux isPySpace t [] = [t] := by
        have h3 := splitChunksAux_sepfree t [] []
          (fun c hc => h t (List.mem_cons_self _ _) c hc)
        rw [List.append_nil] at h3
        rw [h3]
        simp [splitChunksAux]
      rw [pySplitChars, splitChunks, h2]
    | cons u ts3 =>
      show pySplitChars (t ++ [' '] ++ joinSep [' '] (u :: ts3)) = _
      have hsf : ∀ c ∈ t, isPySpace c = false :=
        fun c hc => h t (List.mem_cons_self _ _) c hc
      rw [pySplitChars, splitChunks, List.append_assoc, List.singleton_append,
        splitChunksAux_sepfree t _ [] hsf, splitChunksAux_sep]
      simp only [List.append_nil, List.reverse_reverse]
      have ihh := ih (fun t2 ht2 c hc => h t2 (List.mem_cons_of_mem _ ht2) c hc)
      rw [pySplitChars, splitChunks] at ihh
      rw [List.filter_cons, List.filter_cons, ihh]

theorem map_mk_filter : ∀ (toks : List String),
    ((toks.map String.data).filter (fun t => decide (t ≠ []))).map
        (fun l => (⟨l⟩ : String)) =
      toks.filter (fun s => decide (s ≠ "")) := by
  intro toks
  induction toks with
  | nil => rfl
  | cons s ss ih =>
    have ih2 : List.map (fun l => (⟨l⟩ : String))
        (List.filter (fun t => !decide (t = [])) (List.map String.data ss)) =
        List.filter (fun s => !decide (s = "")) ss := by
      simpa [ne_eq] using ih
    by_cases hs : s.data = []
    · have hs2 : s = "" := by
        rw [← show String.mk s.data = s from rfl, hs]
      simp [List.filter_cons, hs, hs2, ih2]
    · have hs2 : s ≠ "" := fun hc => hs (by rw [hc])
      have heta : (⟨s.data⟩ : String) = s := rfl
      simp [List.filter_cons, hs, hs2, ih2, heta]

theorem ne_empty_of_long (pn : String) : ("--" ++ pn) ≠ "" := by
  intro hc
  have hd := congrArg String.data hc
  rw [String.data_append, dataDashDash] at hd
  cases hd

theorem rawTokens_filter : ∀ (L : List (String × String)),
    (rawTokens L).filter (fun s => decide (s ≠ "")) = flatTokens L := by
  intro L
  induction L with
  | nil => rfl
  | cons pr L2 ih =>
    have ih2 : List.filter (fun s => !decide (s = "")) (rawTokens L2) = flatTokens L2 := by
      simpa [ne_eq] using ih
    by_cases hv : pr.2 = ""
    · simp [rawTokens, flatTokens, List.filter_cons, ne_empty_of_long, hv, ih2]
    · simp [rawTokens, flatTokens, List.filter_cons, ne_empty_of_long, hv, ih2]

theorem mem_rawTokens : ∀ (L : List (String × String)) (s : String),
    s ∈ rawTokens L → ∃ pr ∈ L, s = "--" ++ pr.1 ∨ s = pr.2 := by
  intro L
  induction L with
  | nil => intro s h; cases h
  | cons pr L2 ih =>
    intro s h
    rw [rawTokens] at h
    rcases List.mem_cons.mp h with h | h
    · exact ⟨pr, List.mem_cons_self _ _, Or.inl h⟩
    · rcases List.mem_cons.mp h with h | h
      · exact ⟨pr, List.mem_cons_self _ _, Or.inr h⟩
      · obtain ⟨q, hq, hor⟩ := ih s h
        exact ⟨q, List.mem_cons_of_mem _ hq, hor⟩

theorem valueList_eq_flatTokens (p : Params)
    (hnames : ∀ pr ∈ serPairs p, ∀ c ∈ pr.1.data, isPySpace c = false)
    (hvals : ∀ pr ∈ serPairs p, ∀ c ∈ pr.2.data, isPySpace c = false) :
    p.valueList = flatTokens (serPairs p) := by
  rw [Params.valueList, valueStr_eq_pieces, pySplit]
  have hdata : (strJoin " " ((serPairs p).map (fun pr => "--" ++ pr.1 ++ " " ++ pr.2))).data =
      joinSep [' '] (((serPairs p).map (fun pr => "--" ++ pr.1 ++ " " ++ pr.2)).map
        String.data) := rfl
  rw [hdata, joinSep_pieces]
  have hts : ∀ t ∈ (rawTokens (serPairs p)).map String.data, ∀ c ∈ t, isPySpace c = false := by
    intro t ht c hc
    obtain ⟨s, hs, hst⟩ := List.mem_map.mp ht
    obtain ⟨pr, hpr, hor⟩ := mem_rawTokens _ s hs
    rcases hor with h | h
    · subst h
      rw [← hst] at hc
      rw [String.data_append, dataDashDash] at hc
      rcases List.mem_cons.mp hc with h2 | h2
      · rw [h2]; rfl
      · rcases List.mem_cons.mp h2 with h3 | h3
        · rw [h3]; rfl
        · exact hnames pr hpr c h3
    · subst h
      rw [← hst] at hc
      exact hvals pr hpr c hc
  rw [pySplitChars_joinSep _ hts, map_mk_filter, rawTokens_filter]

theorem flatTokens_head (pr : String × String) (L2 : List (String × String)) :
    ∃ tl, flatTokens (pr :: L2) = ("--" ++ pr.1) :: tl := by
  by_cases hv : pr.2 = ""
  · exact ⟨flatTokens L2, by simp [flatTokens, hv]⟩
  · exact ⟨pr.2 :: flatTokens L2, by simp [flatTokens, hv]⟩

theorem parseTokens_flatTokens (names : List String) :
    ∀ (L : List (String × String)) (i : Nat) (acc : List (String × Option String)),
      (∀ pr ∈ L, pr.1 ∈ names ∧ pr.1 ≠ "help" ∧ strStartsWith pr.2 "-" = false) →
      parseTokens noValidator names (flatTokens L) i acc =
        Except.ok (L.foldl (fun a pr => setParam a pr.1 (some pr.2)) acc) := by
  intro L
  induction L with
  | nil => intro i acc _; rfl
  | cons pr L2 ih =>
    intro i acc hL
    obtain ⟨hpn, hh, hdash⟩ := hL pr (List.mem_cons_self _ _)
    have hL2 : ∀ q ∈ L2, q.1 ∈ names ∧ q.1 ≠ "help" ∧ strStartsWith q.2 "-" = false :=
      fun q hq => hL q (List.mem_cons_of_mem _ hq)
    by_cases hv : pr.2 = ""
    · rw [show flatTokens (pr :: L2) = ("--" ++ pr.1) :: flatTokens L2 from by
        simp [flatTokens, hv]]
      cases L2 with
      | nil =>
        rw [show flatTokens ([] : List (String × String)) = [] from rfl,
          parseTokens_long_last names pr.1 i acc hpn hh]
        simp [List.foldl_cons, List.foldl_nil, hv]
      | cons q L3 =>
        obtain ⟨tl, htl⟩ := flatTokens_head q L3
        rw [htl, parseTokens_long_dash_step names pr.1 ("--" ++ q.1) tl i acc hpn hh
          (strStartsWith_dash_of_long q.1), ← htl,
          ih (i + 1) (setParam acc pr.1 (some "")) hL2]
        simp [hv]
    · rw [show flatTokens (pr :: L2) = ("--" ++ pr.1) :: pr.2 :: flatTokens L2 from by
        simp [flatTokens, hv]]
      rw [parseTokens_long_value_step names pr.1 pr.2 (flatTokens L2) i acc hpn hh hdash,
        ih (i + 2) (setParam acc pr.1 (some pr.2)) hL2, List.foldl_cons]

theorem lookup_foldl_set_not_mem : ∀ (L : List (String × String))
    (m : List (String × Option String)) (x : String),
    x ∉ L.map Prod.fst →
    lookupKey x (L.foldl (fun a pr => setParam a pr.1 (some pr.2)) m) = lookupKey x m := by
  intro L
  induction L with
  | nil => intro m x _; rfl
  | cons pr L2 ih =>
    intro m x hx
    have hx1 : x ≠ pr.1 := fun hc => hx (by rw [List.map_cons]; exact hc ▸ List.mem_cons_self _ _)
    have hx2 : x ∉ L2.map Prod.fst :=
      fun hc => hx (by rw [List.map_cons]; exact List.mem_cons_of_mem _ hc)
    rw [List.foldl_cons, ih _ x hx2, lookupKey_setParam_ne _ _ _ _ hx1]

theorem lookup_foldl_set_mem : ∀ (L : List (String × String))
    (m : List (String × Option String)) (x : String) (v : String),
    (L.map Prod.fst).Nodup → (x, v) ∈ L → x ∈ keysOf m →
    lookupKey x (L.foldl (fun a pr => setParam a pr.1 (some pr.2)) m) = some (some v) := by
  intro L
  induction L with
  | nil => intro m x v _ hx _; cases hx
  | cons pr L2 ih =>
    intro m x v hnd hx hkm
    rw [List.map_cons, List.nodup_cons] at hnd
    rcases List.mem_cons.mp hx with h | h
    · have hx1 : pr.1 = x := by rw [← h]
      have hxs : x ∉ L2.map Prod.fst := by rw [← hx1]; exact hnd.1
      rw [List.foldl_cons, lookup_foldl_set_not_mem L2 _ x hxs, ← h]
      exact lookupKey_setParam_self _ _ _ hkm
    · have hx1 : x ≠ pr.1 := by
        intro hc
        apply hnd.1
        rw [← hc]
        have := List.mem_map_of_mem Prod.fst h
        simpa using this
      rw [List.foldl_cons]
      apply ih _ x v hnd.2 h
      rw [keysOf_setParam]
      exact hkm

theorem mem_serPairs (p : Params) (pn v : String) :
    (pn, v) ∈ serPairs p ↔
      pn ∈ p.paramNames ∧ lookupKey pn p.params = some (some v) ∧ pn ∉ p.paramQuiet := by
  rw [serPairs]
  constructor
  · intro h
    obtain ⟨a, ha, hfa⟩ := List.mem_filterMap.mp h
    cases hl : lookupKey a p.params with
    | none => rw [hl] at hfa; cases hfa
    | some w? =>
      cases w? with
      | none => rw [hl] at hfa; cases hfa
      | some w =>
        simp only [hl] at hfa
        by_cases hq : a ∈ p.paramQuiet
        · rw [if_pos hq] at hfa; cases hfa
        · rw [if_neg hq] at hfa
          injection hfa with hpair
          rw [Prod.mk.injEq] at hpair
          obtain ⟨h1, h2⟩ := hpair
          subst h1
          subst h2
          exact ⟨ha, hl, hq⟩
  · intro ⟨h1, h2, h3⟩
    apply List.mem_filterMap.mpr
    exact ⟨pn, h1, by simp only [h2]; rw [if_neg h3]⟩

theorem filterMap_keys_sublist (names : List String) (f : String → Option (String × String))
    (hf : ∀ pn pr, f pn = some pr → pr.1 = pn) :
    ((names.filterMap f).map Prod.fst).Sublist names := by
  induction names with
  | nil => simp
  | cons n ns ih =>
    rw [List.filterMap_cons]
    cases hfn : f n with
    | none => exact ih.cons n
    | some pr =>
      rw [List.map_cons, hf n pr hfn]
      exact ih.cons₂ n

theorem serPairs_keys_nodup (p : Params) (hnd : p.paramNames.Nodup) :
    ((serPairs p).map Prod.fst).Nodup := by
  apply List.Nodup.sublist _ hnd
  rw [serPairs]
  apply filterMap_keys_sublist
  intro pn pr hpr
  cases hl : lookupKey pn p.params with
  | none => rw [hl] at hpr; cases hpr
  | some w? =>
    cases w? with
    | none => rw [hl] at hpr; cases hpr
    | some w =>
      simp only [hl] at hpr
      by_cases hq : pn ∈ p.paramQuiet
      · rw [if_pos hq] at hpr; cases hpr
      · rw [if_neg hq] at hpr
        injection hpr with hpair
        rw [← hpair]

theorem paramsInit_ok_destruct (validate : Validator) (tokens names : List String)
    (defaults : List (String × String)) (quiet : List String) (p : Params)
    (h : paramsInit validate tokens names defaults quiet = Except.ok p) :
    ∃ parsed, keysOf parsed = names ∧
      p = ⟨names, applyDefaults names defaults parsed, defaults, quiet⟩ := by
  simp only [paramsInit] at h
  split at h
  · exact absurd h (by simp)
  next parsed hpe =>
    injection h with h2
    refine ⟨parsed, ?_, h2.symm⟩
    split at hpe
    · rw [parseTokens_keys _ _ _ _ _ _ hpe, keysOf_initMap]
    · rw [assignPositional_keys _ _ _ _ hpe, keysOf_initMap]

/-- C7 (amended/corrected): the round trip `Params(p.value_list())`
reconstructs the named values only under side conditions the spec omits.
With the identity validator, a duplicate-free schema whose names are not
`help` and contain no whitespace, and provided every stored value is
whitespace-free and does not begin with `-`, re-parsing `value_list`
succeeds and yields the same `get_named` view for every schema name
(parameters that remained `None` are re-filled from the same defaults
dictionary).  The unamended claim is refuted by `value_round_trip_cex`:
a dash-leading stored value — exactly what the shipped xgemm defaults
`M_size = N_size = K_size = '-1'` produce — makes `value_str`
unreparseable, because the parser reads a dash-leading token after a
long option as the start of the next option. -/
theorem value_round_trip (tokens names : List String)
    (defaults : List (String × String)) (p1 : Params)
    (hnd : names.Nodup)
    (hnames : ∀ pn ∈ names, pn ≠ "help" ∧ ∀ c ∈ pn.data, isPySpace c = false)
    (hp1 : paramsInit noValidator tokens names defaults [] = Except.ok p1)
    (hvals : ∀ pn v, lookupKey pn p1.params = some (some v) →
      (∀ c ∈ v.data, isPySpace c = false) ∧ strStartsWith v "-" = false) :
    ∃ p2, paramsInit noValidator p1.valueList names defaults [] = Except.ok p2 ∧
      ∀ pn ∈ names, p2.getNamed pn = p1.getNamed pn := by
  obtain ⟨parsed, hkp, hp1eq⟩ := paramsInit_ok_destruct _ _ _ _ _ _ hp1
  have hpnames : p1.paramNames = names := by rw [hp1eq]
  have hpparams : p1.params = applyDefaults names defaults parsed := by rw [hp1eq]
  have hpquiet : p1.paramQuiet = [] := by rw [hp1eq]
  have hkeys1 : keysOf p1.params = names := by
    rw [hpparams, applyDefaults_keys, hkp]
  have hWc : ∀ pn v, (pn, v) ∈ serPairs p1 ↔
      pn ∈ names ∧ lookupKey pn p1.params = some (some v) := by
    intro pn v
    rw [mem_serPairs, hpnames, hpquiet]
    simp
  have hWnd : ((serPairs p1).map Prod.fst).Nodup :=
    serPairs_keys_nodup p1 (by rw [hpnames]; exact hnd)
  have hLcond : ∀ pr ∈ serPairs p1, pr.1 ∈ names ∧ pr.1 ≠ "help" ∧
      strStartsWith pr.2 "-" = false := by
    intro pr hpr
    have hm := (hWc pr.1 pr.2).mp hpr
    exact ⟨hm.1, (hnames pr.1 hm.1).1, (hvals pr.1 pr.2 hm.2).2⟩
  have hvlist : p1.valueList = flatTokens (serPairs p1) := by
    apply valueList_eq_flatTokens
    · intro pr hpr c hc
      exact ((hnames pr.1 ((hWc pr.1 pr.2).mp hpr).1).2) c hc
    · intro pr hpr c hc
      exact ((hvals pr.1 pr.2 ((hWc pr.1 pr.2).mp hpr).2).1) c hc
  refine ⟨⟨names, applyDefaults names defaults
      ((serPairs p1).foldl (fun a pr => setParam a pr.1 (some pr.2))
        (names.map (fun n => (n, (none : Option String))))), defaults, []⟩, ?_, ?_⟩
  · simp only [paramsInit]
    cases hW : serPairs p1 with
    | nil =>
      have hvl : p1.valueList = [] := by rw [hvlist, hW]; rfl
      rw [hvl]
      simp [List.zip_nil_right, assignPositional]
    | cons pr W2 =>
      obtain ⟨tl, htl⟩ := flatTokens_head pr W2
      have hany : p1.valueList.any (fun t => strStartsWith t "--" || isShortOption t) = true := by
        rw [hvlist, hW, htl]
        simp [strStartsWith_dashdash]
      rw [if_pos hany, show p1.valueList = flatTokens (pr :: W2) from by rw [hvlist, hW],
        parseTokens_flatTokens names (pr :: W2) 0 _ (hW ▸ hLcond)]
  · intro pn hpn
    show lookupKey pn (applyDefaults names defaults
        ((serPairs p1).foldl (fun a pr => setParam a pr.1 (some pr.2))
          (names.map (fun n => (n, (none : Option String)))))) = p1.getNamed pn
    rw [Params.getNamed, applyDefaults_lookup_mem names defaults _ pn hnd hpn]
    cases hlp : lookupKey pn p1.params with
    | none =>
      exfalso
      have hno := (lookupKey_eq_none_iff pn p1.params).mp hlp
      rw [hkeys1] at hno
      exact hno hpn
    | some w? =>
      cases w? with
      | some v =>
        have hmemW : (pn, v) ∈ serPairs p1 := (hWc pn v).mpr ⟨hpn, hlp⟩
        have h2 : lookupKey pn ((serPairs p1).foldl (fun a pr => setParam a pr.1 (some pr.2))
            (names.map (fun n => (n, (none : Option String))))) = some (some v) :=
          lookup_foldl_set_mem _ _ pn v hWnd hmemW (by rw [keysOf_initMap]; exact hpn)
        rw [h2]
      | none =>
        have hnotW : pn ∉ (serPairs p1).map Prod.fst := by
          intro hc
          obtain ⟨pr, hpr, hfst⟩ := List.mem_map.mp hc
          have hm := (hWc pr.1 pr.2).mp hpr
          rw [hfst] at hm
          rw [hm.2] at hlp
          cases hlp
        have h2 : lookupKey pn ((serPairs p1).foldl (fun a pr => setParam a pr.1 (some pr.2))
            (names.map (fun n => (n, (none : Option String))))) =
            lookupKey pn (names.map (fun n => (n, (none : Option String)))) :=
          lookup_foldl_set_not_mem _ _ pn hnotW
        have h3 : lookupKey pn (names.map (fun n => (n, (none : Option String)))) =
            some none := by
          rw [lookupKey_initMap]; simp [hpn]
        rw [h2, h3]
        have h4 := applyDefaults_lookup_mem names defaults parsed pn hnd hpn
        rw [← hpparams, hlp] at h4
        cases hpp : lookupKey pn parsed with
        | none =>
          exfalso
          have hno := (lookupKey_eq_none_iff pn parsed).mp hpp
          rw [hkp] at hno
          exact hno hpn
        | some u? =>
          cases u? with
          | none =>
            simp only [hpp] at h4
            injection h4 with h5
            rw [← h5]
          | some u =>
            simp only [hpp] at h4
            injection h4 with h5
            cases h5

/-- C7 counterexample: with a default value that begins with a dash —
exactly what xgemm ships for `M_size`/`N_size`/`K_size` (`'-1'`) — the
object constructs fine, its `value_list` is as expected, but re-parsing
that very list is rejected: after `--M_size` the parser treats the
dash-leading `-1` as the start of the next option, records `M_size` as
empty, and then fails on `-1` as a malformed token.  The unqualified
round-trip sentence of the spec is therefore false on the shipped
kernels. -/
theorem value_round_trip_cex :
    (paramsInit noValidator ["--a", "5"] ["a", "M_size"] [("M_size", "-1")] []).map
        Params.valueList = Except.ok ["--a", "5", "--M_size", "-1"] ∧
    paramsInit noValidator ["--a", "5", "--M_size", "-1"] ["a", "M_size"]
        [("M_size", "-1")] [] = Except.error (ParamErr.malformedToken "-1" 3) := by
  decide

theorem value_round_trip_witness :
    ∃ p2, paramsInit noValidator
        (Params.valueList ⟨["a", "b"], [("a", some "5"), ("b", some "7")], [("b", "7")], []⟩)
        ["a", "b"] [("b", "7")] [] = Except.ok p2 ∧
      ∀ pn ∈ ["a", "b"], p2.getNamed pn =
        Params.getNamed ⟨["a", "b"], [("a", some "5"), ("b", some "7")], [("b", "7")], []⟩ pn := by
  apply value_round_trip ["--a", "5"] ["a", "b"] [("b", "7")]
  · decide
  · decide
  · decide
  · intro pn v h
    have h2 : lookupKey pn [("a", some "5"), ("b", some "7")] = some (some v) := h
    simp only [lookupKey] at h2
    split at h2
    · injection h2 with h3
      injection h3 with h4
      rw [← h4]
      exact ⟨by decide, by decide⟩
    · split at h2
      · injection h2 with h3
        injection h3 with h4
        rw [← h4]
        exact ⟨by decide, by decide⟩
      · cases h2
